import Mathlib

/-!
Shallow embedding of `pexif.py` (JPEG / EXIF metadata codec) and proofs
about the claims of its specification.

Conventions of the embedding:
* a Python byte string is a `List Nat` (each element a byte value);
* Python 2 `struct.unpack` / `struct.pack` are modelled with explicit
  length and range checks (`structError` / `packError` on failure);
* exceptions are modelled with `Except Err`;
* the recursion through nested directories in `IfdData.getdata` is
  bounded by an explicit fuel parameter (`fuelOut` when exhausted).
-/

namespace Pexif

/-- Errors a pexif operation can raise.  `invalidFile` is
`JpegFile.InvalidFile`, `invalidSegment` is `DefaultSegment.InvalidSegment`,
`structError` is `struct.error`, `keyError` / `typeError` / `indexError` /
`attrError` are the corresponding Python builtin exceptions, `packError`
is `struct.error` raised while packing, `assertFail` is a failed `assert`
statement, `cantHandle` models the string exceptions `raise "Can't handle
this"` and `tagsNotSetUp` the string exception in `IfdData.__setitem__`.
`fuelOut` is an artefact of the fuel-bounded embedding. -/
inductive Err where
  | invalidFile
  | invalidSegment
  | structError
  | keyError
  | typeError
  | indexError
  | attrError
  | packError
  | assertFail
  | cantHandle
  | tagsNotSetUp
  | fuelOut
  deriving DecidableEq, Repr

/-- Byte order, `'<'` (Intel, `"II"`) or `'>'` (Motorola, `"MM"`). -/
inductive Endian where
  | lit
  | big
  deriving DecidableEq, Repr

/-- Python slice `data[a:b]` for non-negative indices (clamping). -/
def pySlice (l : List Nat) (a b : Nat) : List Nat :=
  (l.drop a).take (b - a)

/-- Normalise a possibly negative Python index against a length. -/
def pyIdx (n : Nat) (i : Int) : Nat :=
  if i < 0 then ((n : Int) + i).toNat else min i.toNat n

/-- Python slice `data[a:b]` for possibly negative indices. -/
def pySliceI (l : List Nat) (a b : Int) : List Nat :=
  (l.drop (pyIdx l.length a)).take (pyIdx l.length b - pyIdx l.length a)

/-- Python `s.strip('\0')`: remove NUL bytes from both ends. -/
def pyStrip0 (l : List Nat) : List Nat :=
  ((l.dropWhile (· == 0)).reverse.dropWhile (· == 0)).reverse

/-- Model of `fd.read(n)` on an in-memory buffer: returns the bytes read
and the new position (stops at end of file). -/
def readN (b : List Nat) (pos n : Nat) : List Nat × Nat :=
  ((b.drop pos).take n, min (pos + n) b.length)

/-- Model of `fd.read()` (read to end of file). -/
def readAll (b : List Nat) (pos : Nat) : List Nat × Nat :=
  (b.drop pos, b.length)

/-- `struct.unpack(e + "H", s)`: a 2-byte unsigned integer. -/
def unpack16 (e : Endian) (s : List Nat) : Except Err Nat :=
  match s with
  | [a, b] =>
    .ok (match e with
         | .lit => a + 256 * b
         | .big => 256 * a + b)
  | _ => .error .structError

/-- `struct.unpack(e + "I", s)`: a 4-byte unsigned integer. -/
def unpack32 (e : Endian) (s : List Nat) : Except Err Nat :=
  match s with
  | [a, b, c, d] =>
    .ok (match e with
         | .lit => a + 256 * (b + 256 * (c + 256 * d))
         | .big => d + 256 * (c + 256 * (b + 256 * a)))
  | _ => .error .structError

/-- `struct.unpack(e + "i", s)`: a 4-byte signed integer. -/
def unpack32s (e : Endian) (s : List Nat) : Except Err Int := do
  let u ← unpack32 e s
  pure (if u < 2147483648 then (u : Int) else (u : Int) - 4294967296)

/-- `struct.unpack(e + "HI", s)`: used for the TIFF header. -/
def unpackHI (e : Endian) (s : List Nat) : Except Err (Nat × Nat) :=
  match s with
  | [a, b, c, d, f, g] => do
    let t ← unpack16 e [a, b]
    let o ← unpack32 e [c, d, f, g]
    pure (t, o)
  | _ => .error .structError

/-- `struct.unpack(e + "HHII", s)`: one 12-byte IFD entry record. -/
def unpackHHII (e : Endian) (s : List Nat) : Except Err (Nat × Nat × Nat × Nat) :=
  match s with
  | [a, b, c, d, f, g, h, i, j, k, l, m] => do
    let tag ← unpack16 e [a, b]
    let ty ← unpack16 e [c, d]
    let comps ← unpack32 e [f, g, h, i]
    let dat ← unpack32 e [j, k, l, m]
    pure (tag, ty, comps, dat)
  | _ => .error .structError

/-- Little-endian byte decomposition of a `Nat` into `k` bytes. -/
def natLeBytes : Nat → Nat → List Nat
  | 0, _ => []
  | k + 1, n => n % 256 :: natLeBytes k (n / 256)

/-- `struct.pack(e + "H", v)` with the standard-size range check. -/
def pack16 (e : Endian) (v : Int) : Except Err (List Nat) :=
  if 0 ≤ v ∧ v ≤ 65535 then
    .ok (match e with
         | .lit => natLeBytes 2 v.toNat
         | .big => (natLeBytes 2 v.toNat).reverse)
  else .error .packError

/-- `struct.pack(e + "I", v)` with the standard-size range check. -/
def pack32u (e : Endian) (v : Int) : Except Err (List Nat) :=
  if 0 ≤ v ∧ v ≤ 4294967295 then
    .ok (match e with
         | .lit => natLeBytes 4 v.toNat
         | .big => (natLeBytes 4 v.toNat).reverse)
  else .error .packError

/-- `struct.pack(e + "i", v)` with the standard-size range check
(negative values are stored in two's complement). -/
def pack32s (e : Endian) (v : Int) : Except Err (List Nat) :=
  if -2147483648 ≤ v ∧ v ≤ 2147483647 then
    .ok (match e with
         | .lit => natLeBytes 4 (v.emod 4294967296).toNat
         | .big => (natLeBytes 4 (v.emod 4294967296).toNat).reverse)
  else .error .packError

/-- `struct.pack(">H", v)`: big-endian 2-byte, used for segment sizes. -/
def pack16be (n : Nat) : Except Err (List Nat) :=
  if n ≤ 65535 then .ok [n / 256, n % 256] else .error .packError

/-- `struct.pack("B", v)`: one byte with a range check. -/
def pack8 (n : Nat) : Except Err (List Nat) :=
  if n ≤ 255 then .ok [n] else .error .packError

/-- The kinds of IFD in pexif: `IfdTIFF`, `IfdThumbnail`, `IfdExtendedEXIF`,
`IfdGPS`, `IfdInterop`, `CanonIFD`, `FujiIFD`. -/
inductive IfdKind where
  | tiff
  | thumbnail
  | extended
  | gps
  | interop
  | canon
  | fuji
  deriving DecidableEq, Repr

/-- The Python value stored in the third slot of an entry tuple:
a byte string (`vstr`), a list of one-character strings (`vbytes`,
produced by `list(the_data)` for BYTE/UNDEFINED), a list of integers
(`vnums`, SHORT/LONG/SLONG), a list of `Rational` objects (`vrats`),
a nested `IfdData` object (`vifd`, carrying the directory kind, the
endianness it was constructed with, and its entries), or `None`. -/
inductive IfdVal where
  | vstr (s : List Nat)
  | vbytes (bs : List Nat)
  | vnums (ns : List Int)
  | vrats (rs : List (Int × Int))
  | vifd (k : IfdKind) (selfE : Endian) (es : List (Nat × Nat × IfdVal))
  | vnone
  deriving Repr

/-- One entry tuple `(tag, exif_type, actual_data)`. -/
abbrev Entry := Nat × Nat × IfdVal

/-- The mutable state pexif threads through decoding: the `make`
attribute set on the owning `ExifSegment` by `IfdTIFF.special_handler`
(absent until the `Make` tag has been decoded). -/
structure ExifState where
  make : Option (List Nat)
  deriving Repr

/-- A decoded top-level directory (`IfdTIFF` or `IfdThumbnail`):
its kind, the endianness it was constructed with (`self.e`), its entry
list, and — for a thumbnail — the `jpeg_data` blob. -/
structure TopIfd where
  kind : IfdKind
  selfE : Endian
  entries : List Entry
  jpegData : List Nat
  deriving Repr

/-- The state of a parsed `ExifSegment`: byte order, the two raw endian
marker bytes (`self.tiff_endian`), the top-level IFD list and the final
value of the `make` attribute. -/
structure ExifParsed where
  e : Endian
  tiffEndian : List Nat
  ifds : List TopIfd
  make : Option (List Nat)
  deriving Repr

/-- What kind of segment object the framer constructed. -/
inductive SegKind where
  | default
  | sos (img : List Nat)
  | exifK (ex : ExifParsed)
  deriving Repr

/-- One segment of a JPEG file: its marker, its payload `data`, and the
extra structure of the constructed class. -/
structure Seg where
  marker : Nat
  data : List Nat
  kind : SegKind
  deriving Repr

/-- A `JpegFile`: the ordered segment list. -/
structure JpegFileM where
  segments : List Seg
  deriving Repr

/-- `exif_type_size`, partial on the `exif_types` dictionary. -/
def typeSize : Nat → Option Nat
  | 1 => some 1
  | 2 => some 1
  | 3 => some 2
  | 4 => some 4
  | 5 => some 8
  | 7 => some 1
  | 9 => some 4
  | 10 => some 8
  | _ => none

/-- ASCII bytes of `"Exif"`. -/
def exifWord : List Nat := [69, 120, 105, 102]

/-- ASCII bytes of `"Exif\0\0"`. -/
def exifHeader : List Nat := [69, 120, 105, 102, 0, 0]

/-- ASCII bytes of `"II"`. -/
def iiWord : List Nat := [73, 73]

/-- ASCII bytes of `"MM"`. -/
def mmWord : List Nat := [77, 77]

/-- ASCII bytes of `"Canon"`. -/
def canonWord : List Nat := [67, 97, 110, 111, 110]

/-- ASCII bytes of `"FUJIFILM"`. -/
def fujiWord : List Nat := [70, 85, 74, 73, 70, 73, 76, 77]

/-- The per-class `tags` dictionaries.  `none` means the tag is not in
the dictionary (`KeyError` on `self.tags[key]`); `some none` means the
dictionary tuple has fewer than three components (no declared type);
`some (some ty)` gives the declared exif type at index 2 of the tuple.
`IfdThumbnail` inherits the `IfdTIFF` dictionary. -/
def tagDict : IfdKind → Nat → Option (Option Nat)
  | .interop, t =>
    match t with
    | 0x0001 | 0x0002 | 0x1000 | 0x1001 | 0x1002 => some none
    | _ => none
  | .canon, t =>
    match t with
    | 0x0006 | 0x0007 | 0x0008 | 0x0009 | 0x000c | 0x000f => some none
    | _ => none
  | .fuji, t =>
    match t with
    | 0x0000 | 0x1000 | 0x1001 | 0x1002 | 0x1003 | 0x1004 | 0x1010
    | 0x1011 | 0x1020 | 0x1021 | 0x1030 | 0x1031 | 0x1100 | 0x1101
    | 0x1210 | 0x1300 | 0x1301 | 0x1302 => some none
    | _ => none
  | .gps, t =>
    match t with
    | 0x0 => some (some 1)
    | 0x1 => some (some 2)
    | 0x2 => some (some 5)
    | 0x3 => some (some 2)
    | 0x4 => some (some 5)
    | 0x5 => some (some 1)
    | 0x6 => some (some 5)
    | _ => none
  | .extended, t =>
    match t with
    | 0x9003 | 0x9004 => some (some 2)
    | 0x9000 | 0xA000 | 0xA001 | 0x9101 | 0x9102 | 0xA002 | 0xA003
    | 0x927c | 0x9286 | 0xA004 | 0x9290 | 0x9291 | 0x9292 | 0x829a
    | 0x829d | 0x8822 | 0x8824 | 0x8827 | 0x8829 | 0x9201 | 0x9202
    | 0x9203 | 0x9204 | 0x9205 | 0x9206 | 0x9207 | 0x9208 | 0x9209
    | 0x920a | 0x9214 | 0xa20b | 0xa20c | 0xa20e | 0xa20f | 0xa210
    | 0xa214 | 0xa215 | 0xa217 | 0xa300 | 0xa301 | 0xa302 | 0xa401
    | 0xa402 | 0xa403 | 0xa404 | 0xa405 | 0xa406 | 0xa407 | 0xa40a
    | 0xa40c | 0xa420 => some none
    | _ => none
  | .tiff, t => tagDictTIFF t
  | .thumbnail, t => tagDictTIFF t
where
  /-- The `IfdTIFF.tags` dictionary (every tuple declares a type). -/
  tagDictTIFF : Nat → Option (Option Nat)
  | 0x8769 | 0xA005 | 0x8825 => some (some 4)
  | 0x100 | 0x101 => some (some 4)
  | 0x102 | 0x103 | 0x106 | 0x112 | 0x115 | 0x11c | 0x212 | 0x213
  | 0x128 => some (some 3)
  | 0x11a | 0x11b => some (some 5)
  | 0x111 | 0x116 | 0x117 | 0x201 | 0x202 => some (some 4)
  | 0x132 | 0x10e | 0x10f | 0x110 | 0x131 | 0x13B | 0x8298 => some (some 2)
  | _ => none

/-- `IfdData.__getitem__`: linear scan for the first entry with the given
tag; ASCII entries with a non-`None` value are returned with NUL bytes
stripped from both ends (`entry[2].strip('\0')`, which raises
`AttributeError` when the stored value is not a string).  A missing tag
yields `vnone` (Python returns `None`). -/
def getItem : List Entry → Nat → Except Err IfdVal
  | [], _ => .ok .vnone
  | (tag, ty, v) :: rest, key =>
    if key = tag then
      if ty = 2 then
        match v with
        | .vnone => .ok v
        | .vstr s => .ok (.vstr (pyStrip0 s))
        | _ => .error .attrError
      else .ok v
    else getItem rest key

/-- Whether an entry value is Python `None`. -/
def IfdVal.isNone : IfdVal → Bool
  | .vnone => true
  | _ => false

/-- The search-and-replace loop of `IfdData.__setitem__`: the first entry
with the tag is replaced (keeping its stored tag and type) or deleted
when the value is `None`; when no entry matches, `(key, dict_type,
value)` is appended — also when the value is `None`. -/
def setLoop (key dictTy : Nat) (v : IfdVal) : List Entry → List Entry
  | [] => [(key, dictTy, v)]
  | (tag, ty, w) :: rest =>
    if key = tag then
      if v.isNone then rest else (tag, ty, v) :: rest
    else (tag, ty, w) :: setLoop key dictTy v rest

/-- `IfdData.__setitem__`: raises `KeyError` for a tag not in the
dictionary, the string exception for a dictionary tuple without a type,
appends one `NUL` to an ASCII value lacking one (`value.endswith`
raises `AttributeError` on a non-string non-`None` value), then runs the
search-and-replace loop. -/
def setItem (k : IfdKind) (es : List Entry) (key : Nat) (v : IfdVal) :
    Except Err (List Entry) := do
  let info ← match tagDict k key with
             | none => throw .keyError
             | some i => pure i
  let dictTy ← match info with
               | none => throw .tagsNotSetUp
               | some ty => pure ty
  let v ← if dictTy = 2 then
            match v with
            | .vnone => pure v
            | .vstr s => pure (.vstr (if s.getLast? = some 0 then s else s ++ [0]))
            | _ => throw .attrError
          else pure v
  pure (setLoop key dictTy v es)

/-- Unpack a run of fixed-width integers (`unpack(e + "H"*n, s)` etc.),
chunk by chunk; each chunk decode fails on a short slice. -/
def unpackRun (e : Endian) (w : Nat) (f : Endian → List Nat → Except Err Int) :
    Nat → List Nat → Except Err (List Int)
  | 0, _ => .ok []
  | k + 1, s => do
    let v ← f e (s.take w)
    let rest ← unpackRun e w f k (s.drop w)
    .ok (v :: rest)

/-- `unpack(e + c*comps, s)` for an integer format `c` of width `w`:
`struct` demands the buffer length match the format exactly. -/
def unpackNums (e : Endian) (w : Nat) (f : Endian → List Nat → Except Err Int)
    (comps : Nat) (s : List Nat) : Except Err (List Int) :=
  if s.length = w * comps then unpackRun e w f comps s
  else .error .structError

/-- `unpack16` with the result as an `Int`. -/
def unpack16i (e : Endian) (s : List Nat) : Except Err Int :=
  (unpack16 e s).map Int.ofNat

/-- `unpack32` with the result as an `Int`. -/
def unpack32i (e : Endian) (s : List Nat) : Except Err Int :=
  (unpack32 e s).map Int.ofNat

/-- The rational decode loop: `unpack(e + t, the_data[i*8:i*8+8])` for
each component, with `t = "II"` (unsigned) or `"ii"` (signed). -/
def unpackRats (e : Endian) (sgn : Bool) : Nat → List Nat → Except Err (List (Int × Int))
  | 0, _ => .ok []
  | k + 1, s => do
    let num ← if sgn then unpack32s e (s.take 4) else unpack32i e (s.take 4)
    let den ← if sgn then unpack32s e (pySlice s 4 8) else unpack32i e (pySlice s 4 8)
    let rest ← unpackRats e sgn k (s.drop 8)
    .ok ((num, den) :: rest)

/-- Decode the value of one non-embedded IFD entry (the `else` branch of
the entry loop in `IfdData.__init__`).  `data32` is the raw 4-byte value
field, `start` the absolute offset of the 12-byte entry record.  Values
longer than four bytes are fetched through the offset indirection.
Note on ASCII: the source computes `the_data + '\0'` when the last byte
is not NUL (line 280) but immediately overwrites it with `actual_data =
the_data` (line 283), so the value is stored unchanged; only the
`IndexError` of `the_data[-1]` on an empty string survives. -/
def decodeTagValue (e : Endian) (ty comps data32 start : Nat) (data : List Nat) :
    Except Err IfdVal := do
  let sz ← match typeSize ty with
           | some s => pure s
           | none => throw .typeError
  let byteSize := sz * comps
  let theData := if byteSize > 4 then pySlice data data32 (data32 + byteSize)
                 else pySlice data (start + 8) (start + 8 + byteSize)
  if ty = 1 ∨ ty = 7 then
    pure (.vbytes theData)
  else if ty = 2 then
    match theData.getLast? with
    | none => throw .indexError
    | some _ => pure (.vstr theData)
  else if ty = 3 then
    (unpackNums e 2 unpack16i comps theData).map .vnums
  else if ty = 4 then
    (unpackNums e 4 unpack32i comps theData).map .vnums
  else if ty = 9 then
    (unpackNums e 4 (fun e s => unpack32s e s) comps theData).map .vnums
  else if ty = 5 then
    (unpackRats e false comps theData).map .vrats
  else if ty = 10 then
    (unpackRats e true comps theData).map .vrats
  else
    throw .cantHandle

/-- The type of an embedded-tag constructor
(`self.embedded_tags[tag](e, the_data, exif_file, data)`). -/
abbrev EmbedFn := Endian → Nat → ExifState → List Nat → Except Err (IfdVal × ExifState)

/-- The entry loop of `IfdData.__init__`: decode `n` 12-byte records.
`embed` is the class's `embedded_tags` dictionary; `mk` is true when the
class has the `IfdTIFF.special_handler` (which stores the stripped
`Make` string into the owning file's `make` attribute, raising
`AttributeError` via `.strip` when the decoded value is not a string). -/
def ifdEntriesLoop (embed : Nat → Option EmbedFn) (mk : Bool) (e : Endian)
    (offset : Nat) (data : List Nat) :
    Nat → Nat → ExifState → List Entry → Except Err (List Entry × ExifState)
  | 0, _, st, acc => .ok (acc.reverse, st)
  | k + 1, i, st, acc => do
    let start := i * 12 + 2 + offset
    let (tag, ty, comps, data32) ← unpackHHII e (pySlice data start (start + 12))
    match embed tag with
    | some f => do
      let (v, st2) ← f e data32 st data
      ifdEntriesLoop embed mk e offset data k (i + 1) st2 ((tag, ty, v) :: acc)
    | none => do
      let v ← decodeTagValue e ty comps data32 start data
      let st2 ←
        if mk && tag == 0x10f then
          match v with
          | .vstr s => pure (ExifState.mk (some (pyStrip0 s)))
          | _ => throw .attrError
        else pure st
      ifdEntriesLoop embed mk e offset data k (i + 1) st2 ((tag, ty, v) :: acc)

/-- `IfdData.__init__` with a data buffer: read the entry count, the
trailing next-directory offset (unused by callers but unpacked eagerly),
then decode the entries. -/
def ifdInit (embed : Nat → Option EmbedFn) (mk : Bool) (e : Endian)
    (offset : Nat) (st : ExifState) (data : List Nat) :
    Except Err (List Entry × ExifState) := do
  let n ← unpack16 e (pySlice data offset (offset + 2))
  let _next ← unpack32 e (pySlice data (offset + 2 + 12 * n) (offset + 2 + 12 * n + 4))
  ifdEntriesLoop embed mk e offset data n 0 st []

/-- An empty `embedded_tags` dictionary. -/
def noEmbed : Nat → Option EmbedFn := fun _ => none

/-- `IfdMakerNote`, the factory for maker-note entries: dispatches on
the `make` attribute of the owning file (AttributeError when the `Make`
tag has not been decoded).  Canon notes are decoded with a forced
little-endian `CanonIFD`; FujiFilm notes require the literal
`"FUJIFILM"` header, read their own little-endian internal offset, and
decode a `FujiIFD` over `data[offset:]` (block-relative offsets); any
other manufacturer raises `InvalidFile`. -/
def ifdMakerNote : EmbedFn := fun _e off st data => do
  let mk ← match st.make with
           | some m => pure m
           | none => throw .attrError
  if mk = canonWord then do
    let (es, st2) ← ifdInit noEmbed false .lit off st data
    pure (.vifd .canon .lit es, st2)
  else if mk = fujiWord then do
    let header := pySlice data off (off + 8)
    if header ≠ fujiWord then throw .invalidFile
    let ifdOff ← unpack32 .lit (pySlice data (off + 8) (off + 12))
    let (es, st2) ← ifdInit noEmbed false .lit ifdOff st (data.drop off)
    pure (.vifd .fuji .lit es, st2)
  else throw .invalidFile

/-- `IfdInterop` as an embedded-tag constructor. -/
def mkInterop : EmbedFn := fun e off st data =>
  (ifdInit noEmbed false e off st data).map fun p => (.vifd .interop e p.1, p.2)

/-- `IfdGPS` as an embedded-tag constructor. -/
def mkGPS : EmbedFn := fun e off st data =>
  (ifdInit noEmbed false e off st data).map fun p => (.vifd .gps e p.1, p.2)

/-- `IfdExtendedEXIF.embedded_tags`: the maker-note tag. -/
def extEmbed : Nat → Option EmbedFn := fun t =>
  if t = 0x927c then some ifdMakerNote else none

/-- `IfdExtendedEXIF` as an embedded-tag constructor. -/
def mkExtended : EmbedFn := fun e off st data =>
  (ifdInit extEmbed false e off st data).map fun p => (.vifd .extended e p.1, p.2)

/-- `IfdTIFF.embedded_tags`: Interop, extended EXIF and GPS pointers. -/
def tiffEmbed : Nat → Option EmbedFn := fun t =>
  if t = 0xA005 then some mkInterop
  else if t = 0x8769 then some mkExtended
  else if t = 0x8825 then some mkGPS
  else none

/-- `IfdTIFF(e, offset, exif_file, data)`. -/
def tiffInit (e : Endian) (offset : Nat) (st : ExifState) (data : List Nat) :
    Except Err (TopIfd × ExifState) :=
  (ifdInit tiffEmbed true e offset st data).map fun p =>
    (⟨.tiff, e, p.1, []⟩, p.2)

/-- Python `val[0]` on a decoded entry value, as used by
`IfdThumbnail.ifd_handler`: the first element of a list of integers is
an integer; the first element of a string / byte list / rational list is
a non-integer object (which makes the later slice raise `TypeError`);
subscripting `None` or an IFD object raises `TypeError` at once. -/
inductive PyScalar where
  | int (n : Int)
  | nonInt
  deriving DecidableEq, Repr

/-- `val[0]` extraction. -/
def pyFirst : IfdVal → Except Err PyScalar
  | .vnums (n :: _) => .ok (.int n)
  | .vnums [] => .error .indexError
  | .vstr (_ :: _) => .ok .nonInt
  | .vstr [] => .error .indexError
  | .vbytes (_ :: _) => .ok .nonInt
  | .vbytes [] => .error .indexError
  | .vrats (_ :: _) => .ok .nonInt
  | .vrats [] => .error .indexError
  | _ => .error .typeError

/-- The scan loop of `IfdThumbnail.ifd_handler`: the **last** entry with
tag `0x201` / `0x202` provides the offset / size. -/
def thumbScan : List Entry → Option PyScalar → Option PyScalar →
    Except Err (Option PyScalar × Option PyScalar)
  | [], off, sz => .ok (off, sz)
  | (tag, _, v) :: rest, off, sz => do
    let off ← if tag = 0x201 then (pyFirst v).map some else pure off
    let sz ← if tag = 0x202 then (pyFirst v).map some else pure sz
    thumbScan rest off sz

/-- `IfdThumbnail.ifd_handler`: find the JPEG offset and size tags
(`InvalidFile` when either is missing), slice the blob out of the TIFF
buffer, and check the captured length (`InvalidFile` on a shortfall). -/
def thumbHandler (es : List Entry) (data : List Nat) : Except Err (List Nat) := do
  let (off?, sz?) ← thumbScan es none none
  match sz?, off? with
  | some s, some o => do
    let o ← match o with
            | .int n => pure n
            | .nonInt => throw .typeError
    let s ← match s with
            | .int n => pure n
            | .nonInt => throw .typeError
    let jd := pySliceI data o (o + s)
    if (jd.length : Int) ≠ s then throw .invalidFile else pure jd
  | _, _ => throw .invalidFile

/-- `IfdThumbnail(e, offset, exif_file, data)`: a TIFF directory decode
followed by the thumbnail handler. -/
def thumbInit (e : Endian) (offset : Nat) (st : ExifState) (data : List Nat) :
    Except Err (TopIfd × ExifState) := do
  let (es, st2) ← ifdInit tiffEmbed true e offset st data
  let jd ← thumbHandler es data
  pure (⟨.thumbnail, e, es, jd⟩, st2)

/-- The `while offset:` loop of `ExifSegment.parse_data`, unrolled on the
iteration counter: the first directory is decoded as `IfdTIFF`, the
second as `IfdThumbnail`, and a third chained directory raises
`InvalidFile` (after its entry count was already unpacked). -/
def parseIfdChain (e : Endian) (td : List Nat) (o1 : Nat) (st : ExifState) :
    Except Err (List TopIfd × ExifState) :=
  if o1 = 0 then .ok ([], st) else do
    let n1 ← unpack16 e (pySlice td o1 (o1 + 2))
    let (i1, st) ← tiffInit e o1 st td
    let o2 ← unpack32 e (pySlice td (2 + o1 + 12 * n1) (2 + o1 + 12 * n1 + 4))
    if o2 = 0 then .ok ([i1], st) else do
      let n2 ← unpack16 e (pySlice td o2 (o2 + 2))
      let (i2, st) ← thumbInit e o2 st td
      let o3 ← unpack32 e (pySlice td (2 + o2 + 12 * n2) (2 + o2 + 12 * n2 + 4))
      if o3 = 0 then .ok ([i1, i2], st) else do
        let _n3 ← unpack16 e (pySlice td o3 (o3 + 2))
        throw .invalidFile

/-- `ExifSegment.parse_data`: check the `"Exif"` signature after
NUL-stripping (recoverable `InvalidSegment` on mismatch; `struct.error`
when fewer than six bytes are available to `unpack("6s", ...)`), read
the endian marker (`InvalidFile` unless exactly `"II"` or `"MM"`), the
TIFF magic tag (`InvalidFile` unless `0x2a`) and the first directory
offset, then follow the directory chain. -/
def parseExifData (data : List Nat) : Except Err ExifParsed := do
  if data.length < 6 then throw .structError
  let exif := pyStrip0 (data.take 6)
  if exif ≠ exifWord then throw .invalidSegment
  let td := data.drop 6
  let tiffEndian := td.take 2
  let e ← if tiffEndian = iiWord then pure Endian.lit
          else if tiffEndian = mmWord then pure Endian.big
          else throw .invalidFile
  let (tiffTag, tiffOff) ← unpackHI e (pySlice td 2 8)
  if tiffTag ≠ 42 then throw .invalidFile
  let (ifds, st) ← parseIfdChain e td tiffOff ⟨none⟩
  pure ⟨e, tiffEndian, ifds, st.make⟩

/-- Membership in the `jpeg_markers` dictionary (`jpeg_markers[mark]`
raises `KeyError` for any other marker). -/
def markerKnown (m : Nat) : Bool :=
  m == 0xc0 || m == 0xc2 || m == 0xc4 || m == 0xda || m == 0xdb || m == 0xdd ||
  m == 0xe0 || m == 0xe1 || m == 0xe2 || m == 0xe3 || m == 0xe4 || m == 0xe5 ||
  m == 0xe6 || m == 0xe7 || m == 0xe8 || m == 0xe9 || m == 0xea || m == 0xeb ||
  m == 0xec || m == 0xed || m == 0xee || m == 0xef || m == 0xfe

/-- The candidate-constructor loop of `JpegFile.__init__` for a non-scan
segment: only APP1 has a specialised decoder (`ExifSegment`); its
`InvalidSegment` is caught and the opaque `DefaultSegment` is used
instead, while every other exception propagates. -/
def buildSegKind (mark : Nat) (data : List Nat) : Except Err SegKind :=
  if mark = 0xe1 then
    match parseExifData data with
    | .ok ex => .ok (.exifK ex)
    | .error .invalidSegment => .ok .default
    | .error er => .error er
  else .ok .default

/-- The segment-reading loop of `JpegFile.__init__` over an in-memory
buffer `b` at position `pos` (fuel-bounded).  Each iteration reads the
`(0xFF, marker)` pair (`struct.error` at end of file, `InvalidFile` on a
bad delimiter, stop on the end-of-image marker), the declared size and
`size - 2` payload bytes (a negative count makes Python's `read` consume
the rest), looks the marker up (`KeyError` if unknown) and constructs a
segment.  The scan-start constructor additionally captures all remaining
bytes but the last two as image data and seeks two bytes back from the
end of the file. -/
def parseLoop (b : List Nat) : Nat → Nat → List Seg → Except Err (List Seg)
  | 0, _, _ => .error .fuelOut
  | fuel + 1, pos, acc =>
    let (head, pos1) := readN b pos 2
    match head with
    | [d0, mark] =>
      if d0 ≠ 255 then .error .invalidFile
      else if mark = 217 then .ok acc.reverse
      else
        let (head2, pos2) := readN b pos1 2
        match head2 with
        | [h1, h2] =>
          let size := 256 * h1 + h2
          let (dta, pos3) := if size < 2 then readAll b pos2 else readN b pos2 (size - 2)
          if markerKnown mark = false then .error .keyError
          else if mark = 218 then
            let rest := b.drop pos3
            let img := rest.take (rest.length - 2)
            parseLoop b fuel (b.length - 2) (⟨mark, dta, .sos img⟩ :: acc)
          else
            match buildSegKind mark dta with
            | .ok kd => parseLoop b fuel pos3 (⟨mark, dta, kd⟩ :: acc)
            | .error er => .error er
        | _ => .error .structError
    | _ => .error .structError

/-- `JpegFile.__init__` from a byte buffer: check the start-of-image
marker, then run the segment loop (with enough fuel for any input). -/
def parseJpeg (b : List Nat) : Except Err (List Seg) :=
  let (soi, pos) := readN b 0 2
  if soi = [255, 216] then parseLoop b (b.length + 1) pos []
  else .error .invalidFile

/-- Python `len(value)` on an entry value (`TypeError` on `None`). -/
def pyLen : IfdVal → Except Err Nat
  | .vstr s => .ok s.length
  | .vbytes bs => .ok bs.length
  | .vnums ns => .ok ns.length
  | .vrats rs => .ok rs.length
  | _ => .error .typeError

/-- Pack a list of integers with a fixed-width packer. -/
def packSeq (e : Endian) (p : Endian → Int → Except Err (List Nat)) :
    List Int → Except Err (List Nat)
  | [] => .ok []
  | v :: rest => do
    let bs ← p e v
    let r ← packSeq e p rest
    .ok (bs ++ r)

/-- The 4-byte packer selected by the rational branch of `getdata`
(`t = "II"` unsigned when the type is RATIONAL, `t = "ii"` signed for
SRATIONAL). -/
def rpack (e : Endian) (sgn : Bool) (v : Int) : Except Err (List Nat) :=
  if sgn then pack32s e v else pack32u e v

/-- Pack a list of rationals (`pack(e + t, *r.as_tuple())` per element). -/
def packRats (e : Endian) (sgn : Bool) : List (Int × Int) → Except Err (List Nat)
  | [] => .ok []
  | (n, d) :: rest => do
    let nb ← rpack e sgn n
    let db ← rpack e sgn d
    let r ← packRats e sgn rest
    .ok (nb ++ db ++ r)

/-- The per-type value serialisation of `IfdData.getdata` (the
`actual_data` computation).  `"".join` accepts both a list of
one-character strings and a string; mismatched shapes raise a Python
error (modelled as `typeError`). -/
def encodeVal (e : Endian) (ty : Nat) (v : IfdVal) : Except Err (List Nat) :=
  if ty = 1 ∨ ty = 7 then
    match v with
    | .vbytes bs => .ok bs
    | .vstr s => .ok s
    | _ => .error .typeError
  else if ty = 2 then
    match v with
    | .vstr s => .ok s
    | _ => .error .typeError
  else if ty = 3 then
    match v with
    | .vnums ns => packSeq e pack16 ns
    | _ => .error .typeError
  else if ty = 4 then
    match v with
    | .vnums ns => packSeq e pack32u ns
    | _ => .error .typeError
  else if ty = 9 then
    match v with
    | .vnums ns => packSeq e pack32s ns
    | _ => .error .typeError
  else if ty = 5 then
    match v with
    | .vrats rs => packRats e false rs
    | _ => .error .typeError
  else if ty = 10 then
    match v with
    | .vrats rs => packRats e true rs
    | _ => .error .typeError
  else .error .cantHandle

/-- The signature of the (virtual) `getdata` method:
kind, `self.e`, entries, `jpeg_data`, caller endianness, start offset,
`last` flag; result is `(bytes, next_free_offset)`. -/
abbrev GdFn := IfdKind → Endian → List Entry → List Nat → Endian → Nat → Bool →
  Except Err (List Nat × Nat)

/-- The non-nested branch of the entry loop in `IfdData.getdata`:
component count from `len(the_data)`, byte size from the type table,
value serialisation, then out-of-line placement (for more than four
bytes) or zero-padding to the 4-byte inline slot. -/
def encodeFlatStep (e : Endian) (dOff : Nat) (tag ty : Nat) (v : IfdVal) :
    Except Err ((Nat × Nat × Nat × List Nat) × List Nat × Nat) := do
  let comps ← pyLen v
  let sz ← match typeSize ty with
           | some s => pure s
           | none => throw .typeError
  let byteSize := sz * comps
  let av ← encodeVal e ty v
  if byteSize > 4 then do
    let ptr ← pack32u e (dOff : Int)
    pure ((tag, ty, comps, ptr), av, dOff + byteSize)
  else
    pure ((tag, ty, comps, av ++ List.replicate (4 - av.length) 0), [], dOff)

/-- One iteration of the entry loop in `IfdData.getdata` at out-of-line
cursor `dOff`: returns the wire entry `(tag, type, count, 4-byte value
field)`, the bytes appended to the out-of-line area, and the new cursor.
A nested directory is encoded recursively (`gd`), checked against the
`assert(next_offset == data_offset)` of the source, and referenced by a
LONG offset, but the wire record keeps the entry's original type code
and — unless that code is already LONG — uses the encoded byte length as
its count (`magic_type` / `magic_components` in the source).  A nested
directory of the thumbnail kind has no `jpeg_data` attribute in this
model and raises `AttributeError`. -/
def encodeEntryStep (gd : GdFn) (e : Endian) (dOff : Nat) :
    Entry → Except Err ((Nat × Nat × Nat × List Nat) × List Nat × Nat)
  | (tag, ty, .vifd kk kE kes) => do
    if kk = .thumbnail then throw .attrError
    let (sub, nxt) ← gd kk kE kes [] e dOff true
    if nxt ≠ dOff + sub.length then throw .assertFail
    let mc := if ty = 4 then 1 else sub.length
    let av ← pack32u e (dOff : Int)
    pure ((tag, ty, mc, av), sub, dOff + sub.length)
  | (tag, ty, v) => encodeFlatStep e dOff tag ty v

/-- The entry loop of `IfdData.getdata`: thread the out-of-line cursor
through the entries, collecting the wire entries and the out-of-line
bytes in order. -/
def encodeEntries (gd : GdFn) (e : Endian) :
    List Entry → Nat → Except Err (List (Nat × Nat × Nat × List Nat) × List Nat × Nat)
  | [], dOff => .ok ([], [], dOff)
  | ent :: rest, dOff => do
    let (oe, chunk, dOff2) ← encodeEntryStep gd e dOff ent
    let (oes, chunks, dOff3) ← encodeEntries gd e rest dOff2
    .ok (oe :: oes, chunk ++ chunks, dOff3)

/-- Serialise the fixed entry table: `pack(self.e + "HHI", *entry[:3])`
followed by the 4-byte value field, per entry. -/
def entriesBytes (selfE : Endian) :
    List (Nat × Nat × Nat × List Nat) → Except Err (List Nat)
  | [] => .ok []
  | (tag, ty, cnt, val4) :: rest => do
    let tb ← pack16 selfE (tag : Int)
    let yb ← pack16 selfE (ty : Int)
    let cb ← pack32u selfE (cnt : Int)
    let r ← entriesBytes selfE rest
    .ok (tb ++ yb ++ cb ++ val4 ++ r)

/-- `extra_ifd_data`: the thumbnail variant returns the JPEG blob and
rewrites every `0x201` entry to point at the start of the out-of-line
area; every other variant contributes nothing. -/
def extraIfdData (k : IfdKind) (es : List Entry) (jd : List Nat) (dOff : Nat) :
    List Nat × List Entry :=
  match k with
  | .thumbnail =>
    (jd, es.map fun en => if en.1 = 0x201 then (en.1, en.2.1, .vnums [(dOff : Int)]) else en)
  | _ => ([], es)

/-- The body of `IfdData.getdata`: compute the out-of-line base offset,
collect `extra_ifd_data`, run the entry loop, then assemble entry count
(packed with the caller's endianness), entry table and next-directory
offset (packed with `self.e`), and the out-of-line data.  The final
`assert (next_offset == offset + len(data))` of the source is modelled
as an explicit check. -/
def getdataBase (gd : GdFn) (k : IfdKind) (selfE : Endian) (es : List Entry)
    (jd : List Nat) (e : Endian) (offset : Nat) (last : Bool) :
    Except Err (List Nat × Nat) := do
  let dOff0 := offset + 2 + es.length * 12 + 4
  let (extra, es2) := extraIfdData k es jd dOff0
  let (oes, outD, dOffF) ← encodeEntries gd e es2 (dOff0 + extra.length)
  let cnt ← pack16 e (es2.length : Int)
  let tbl ← entriesBytes selfE oes
  let nxt ← pack32u selfE (if last then 0 else (dOffF : Int))
  let dta := cnt ++ tbl ++ nxt ++ extra ++ outD
  if dOffF = offset + dta.length then .ok (dta, dOffF) else throw .assertFail

/-- The virtual `getdata` (fuel-bounded): `FujiIFD.getdata` prepends the
`"FUJIFILM"` pre-header with its fixed little-endian internal offset 12,
encodes the directory at internal offset 12 and rebases the returned
next offset; every other kind uses the base implementation directly. -/
def getdata : Nat → GdFn
  | 0, _, _, _, _, _, _, _ => .error .fuelOut
  | fuel + 1, k, selfE, es, jd, e, off, last =>
    if k = .fuji then
      match getdataBase (getdata fuel) k selfE es jd e 12 last with
      | .ok (d, n) => .ok ((fujiWord ++ [12, 0, 0, 0]) ++ d, n + off)
      | .error er => .error er
    else getdataBase (getdata fuel) k selfE es jd e off last

/-- The IFD serialisation loop of `ExifSegment.get_data`: directories are
laid out in chain order starting at offset 8, the last one (by position)
getting the terminal `last` flag. -/
def exifIfdsData (fuel : Nat) (e : Endian) : List TopIfd → Nat → Except Err (List Nat)
  | [], _ => .ok []
  | [ifd], off => do
    let (d, _) ← getdata fuel ifd.kind ifd.selfE ifd.entries ifd.jpegData e off true
    .ok d
  | ifd :: rest, off => do
    let (d, n) ← getdata fuel ifd.kind ifd.selfE ifd.entries ifd.jpegData e off false
    let ds ← exifIfdsData fuel e rest n
    .ok (d ++ ds)

/-- `ExifSegment.get_data`: signature, stored endian marker, TIFF magic
and a hardcoded first-directory offset of 8, then the IFD data. -/
def exifGetData (fuel : Nat) (ex : ExifParsed) : Except Err (List Nat) := do
  let ifdsData ← exifIfdsData fuel ex.e ex.ifds 8
  let t ← pack16 ex.e 42
  let o ← pack32u ex.e 8
  pure (exifHeader ++ ex.tiffEndian ++ (t ++ o) ++ ifdsData)

/-- `get_data` dispatch: the Exif segment re-serialises its directories;
default and scan segments return their stored payload. -/
def segGetData (fuel : Nat) (s : Seg) : Except Err (List Nat) :=
  match s.kind with
  | .exifK ex => exifGetData fuel ex
  | _ => .ok s.data

/-- `DefaultSegment.write` (plus the trailing image data for a scan
segment): `0xFF`, the packed marker, the big-endian `len(data) + 2`,
then the data. -/
def segWrite (fuel : Nat) (s : Seg) : Except Err (List Nat) := do
  let mb ← pack8 s.marker
  let d ← segGetData fuel s
  let lb ← pack16be (d.length + 2)
  pure (255 :: (mb ++ lb ++ d ++ (match s.kind with | .sos img => img | _ => [])))

/-- Write all segments in order. -/
def writeSegs (fuel : Nat) : List Seg → Except Err (List Nat)
  | [] => .ok []
  | s :: rest => do
    let bs ← segWrite fuel s
    let r ← writeSegs fuel rest
    .ok (bs ++ r)

/-- `JpegFile.writeFd`: start-of-image marker, the segments, end-of-image
marker. -/
def writeJpeg (fuel : Nat) (segs : List Seg) : Except Err (List Nat) := do
  let mid ← writeSegs fuel segs
  pure ([255, 216] ++ mid ++ [255, 217])

/-- The state of `ExifSegment(APP1, None, None)` as built by `add_exif`:
endianness defaults (`self.e = '<'`, `self.tiff_endian = 'II'`), no
directories.  (Python stores `data = None` on the segment; the stored
payload is never consulted when writing an Exif segment, so it is
modelled as the empty list.) -/
def emptyExifParsed : ExifParsed := ⟨.lit, iiWord, [], none⟩

/-- The scan in `JpegFile.get_exif`: the first segment whose marker is
APP1, whatever segment class it was decoded as. -/
def getExifSeg (j : JpegFileM) : Option Seg :=
  j.segments.find? (fun s => s.marker == 0xe1)

/-- `JpegFile.add_exif`: a fresh empty Exif segment inserted at index 0. -/
def addExif (j : JpegFileM) : Seg × JpegFileM :=
  let s : Seg := ⟨0xe1, [], .exifK emptyExifParsed⟩
  (s, ⟨s :: j.segments⟩)

/-- `JpegFile.get_exif(create)`. -/
def getExif (j : JpegFileM) (create : Bool) : Option Seg × JpegFileM :=
  match getExifSeg j with
  | some s => (some s, j)
  | none => if create then (let p := addExif j; (some p.1, p.2)) else (none, j)

/-- `ExifSegment.get_primary(create)`: the first top-level directory, or
a fresh empty `IfdTIFF` (constructed with `data = None`) inserted at
index 0 when absent and `create` is set. -/
def getPrimary (ex : ExifParsed) (create : Bool) : Option TopIfd × ExifParsed :=
  match ex.ifds with
  | i :: _ => (some i, ex)
  | [] =>
    if create then
      let ni : TopIfd := ⟨.tiff, ex.e, [], []⟩
      (some ni, {ex with ifds := [ni]})
    else (none, ex)

/-- The top-level directory kinds of a segment, when it is an Exif
segment. -/
def exifIfdKinds (s : Seg) : List IfdKind :=
  match s.kind with
  | .exifK ex => ex.ifds.map TopIfd.kind
  | _ => []

/-- An APP1 payload of an XMP-style segment: the first ten bytes of
`"http://ns."`. -/
def xmpPayload : List Nat := [104, 116, 116, 112, 58, 47, 47, 110, 115, 46]

/-- A JPEG stream whose single segment is an APP1 segment carrying the
XMP-style payload. -/
def xmpFile : List Nat := [255, 216, 255, 225, 0, 12] ++ xmpPayload ++ [255, 217]

/-- A little-endian TIFF blob whose primary directory carries `Make =
"Nikon\0"` followed by an EXIF pointer to an extended directory with a
maker-note entry (tag 0x927c). -/
def nikonTiff : List Nat :=
  iiWord ++ [42, 0] ++ [8, 0, 0, 0]
  ++ [2, 0]
  ++ [0x0f, 0x01, 2, 0, 6, 0, 0, 0, 38, 0, 0, 0]
  ++ [0x69, 0x87, 4, 0, 1, 0, 0, 0, 44, 0, 0, 0]
  ++ [0, 0, 0, 0]
  ++ [78, 105, 107, 111, 110, 0]
  ++ [1, 0]
  ++ [0x7c, 0x92, 7, 0, 4, 0, 0, 0, 0, 0, 0, 0]
  ++ [0, 0, 0, 0]

/-- A complete JPEG stream whose APP1 Exif segment carries the Nikon
maker-note TIFF blob. -/
def nikonFile : List Nat :=
  [255, 216, 255, 225, 0, 70] ++ (exifHeader ++ nikonTiff) ++ [255, 217]

/-- A TIFF blob whose directory chain has three links: an empty primary
at offset 8, a thumbnail with (offset 0, size 0) tags at offset 14, and
a next pointer looping back to offset 8. -/
def chainTd : List Nat :=
  [0, 0, 0, 0, 0, 0, 0, 0]
  ++ [0, 0] ++ [14, 0, 0, 0]
  ++ [2, 0]
  ++ [0x01, 0x02, 4, 0, 1, 0, 0, 0, 0, 0, 0, 0]
  ++ [0x02, 0x02, 4, 0, 1, 0, 0, 0, 0, 0, 0, 0]
  ++ [8, 0, 0, 0]

/-- Goodness of a `getdata`-like function: its returned next-free offset
is the start offset plus the length of the produced bytes, and it never
fails the internal assertion. -/
def GdGood (gd : GdFn) : Prop :=
  ∀ (k : IfdKind) (kE : Endian) (es : List Entry) (jd : List Nat)
    (e : Endian) (off : Nat) (last : Bool),
    (∀ d n, gd k kE es jd e off last = .ok (d, n) → n = off + d.length) ∧
    gd k kE es jd e off last ≠ .error .assertFail

/-! ### A grammar of well-formed marker streams, for the round-trip claim -/

/-- Total builder for a big-endian 2-byte size field (`n < 65536`). -/
def pack16beU (n : Nat) : List Nat := [n / 256, n % 256]

/-- The bytes of one marker segment: `0xFF`, marker, big-endian
`len(payload) + 2`, payload. -/
def segBytes (m : Nat) (p : List Nat) : List Nat :=
  255 :: m :: (pack16beU (p.length + 2) ++ p)

/-- The bytes of a sequence of non-scan segments. -/
def midBytes : List (Nat × List Nat) → List Nat
  | [] => []
  | (m, p) :: rest => segBytes m p ++ midBytes rest

/-- The optional scan-segment part: a scan segment followed by the raw
image data. -/
def tailBytes : Option (List Nat × List Nat) → List Nat
  | none => []
  | some (p, img) => segBytes 218 p ++ img

/-- A complete marker stream: start-of-image, the non-scan segments, the
optional scan part, end-of-image. -/
def jpegStream (mid : List (Nat × List Nat)) (sos : Option (List Nat × List Nat)) :
    List Nat :=
  255 :: 216 :: (midBytes mid ++ tailBytes sos ++ [255, 217])

/-- A well-formed non-scan segment: a marker known to the marker table
(not the scan marker), a payload that fits the 2-byte size field, and —
for APP1 — a payload long enough for the signature check and failing it
(so that the segment decodes as an opaque default segment, not an Exif
segment). -/
def goodMidSeg (m : Nat) (p : List Nat) : Prop :=
  markerKnown m = true ∧ m ≠ 218 ∧ p.length + 2 < 65536 ∧
  (m = 225 → 6 ≤ p.length ∧ pyStrip0 (p.take 6) ≠ exifWord)

/-- All non-scan segments are well formed. -/
def goodMid (mid : List (Nat × List Nat)) : Prop := ∀ mp ∈ mid, goodMidSeg mp.1 mp.2

/-- The scan payload (when present) fits the 2-byte size field. -/
def goodTail : Option (List Nat × List Nat) → Prop
  | none => True
  | some (p, _) => p.length + 2 < 65536

/-- The segment objects the framer is expected to produce for a
well-formed stream. -/
def expectedSegs (mid : List (Nat × List Nat)) (sos : Option (List Nat × List Nat)) :
    List Seg :=
  mid.map (fun mp => ⟨mp.1, mp.2, .default⟩) ++
  (match sos with
   | none => []
   | some (p, img) => [⟨218, p, .sos img⟩])

/-- A minimal JPEG file whose APP1 segment parses as a real Exif segment
(signature, `"II"`, magic 42, empty directory chain): first-IFD offset 0. -/
def exifRtFile : List Nat :=
  [255, 216, 255, 225, 0, 16] ++ exifHeader ++ iiWord ++ [42, 0] ++
    [0, 0, 0, 0] ++ [255, 217]

/-- What the library writes back for `exifRtFile`: the Exif segment is
re-serialised canonically with first-IFD offset 8. -/
def exifRtOut : List Nat :=
  [255, 216, 255, 225, 0, 16] ++ exifHeader ++ iiWord ++ [42, 0] ++
    [8, 0, 0, 0] ++ [255, 217]

/-! ### Helper notions and lemmas for the tag set/get claims -/

/-- No entry of the list carries the given tag. -/
def noTag (es : List Entry) (t : Nat) : Prop := ∀ en ∈ es, en.1 ≠ t

/-- Every entry of the list carrying the given tag has the given type. -/
def tagTyped (es : List Entry) (t ty : Nat) : Prop :=
  ∀ en ∈ es, en.1 = t → en.2.1 = ty

/-- The stored (raw) value of the first entry with the given tag. -/
def rawFirst : List Entry → Nat → Option IfdVal
  | [], _ => none
  | (tag, _, v) :: rest, t => if tag = t then some v else rawFirst rest t

lemma setLoop_noTag (t ty : Nat) (v : IfdVal) (es : List Entry) (h : noTag es t) :
    setLoop t ty v es = es ++ [(t, ty, v)] := by
  induction es with
  | nil => rfl
  | cons en rest ih =>
    obtain ⟨tag, ty0, w⟩ := en
    have hne : tag ≠ t := h (tag, ty0, w) (by simp)
    have hrest : noTag rest t := fun x hx => h x (by simp [hx])
    simp [setLoop, Ne.symm hne, ih hrest]

lemma getItem_noTag (es : List Entry) (t : Nat) (h : noTag es t) :
    getItem es t = .ok .vnone := by
  induction es with
  | nil => rfl
  | cons en rest ih =>
    obtain ⟨tag, ty0, w⟩ := en
    have hne : tag ≠ t := h (tag, ty0, w) (by simp)
    have hrest : noTag rest t := fun x hx => h x (by simp [hx])
    simp [getItem, Ne.symm hne, ih hrest]

lemma pyStrip0_append_zero (s : List Nat) (hh : s.head? ≠ some 0)
    (hl : s.getLast? ≠ some 0) : pyStrip0 (s ++ [0]) = s := by
  cases s with
  | nil => rfl
  | cons a t =>
    have ha : (a == 0) = false := by
      simp only [List.head?_cons, ne_eq] at hh
      simp only [beq_eq_false_iff_ne, ne_eq]
      exact fun h => hh (by rw [h])
    have hrev : ((a :: t).reverse).head? = (a :: t).getLast? := List.head?_reverse _
    unfold pyStrip0
    rw [show (a :: t) ++ [0] = a :: (t ++ [0]) by rfl]
    rw [List.dropWhile_cons]
    simp only [ha, Bool.false_eq_true, if_false]
    rw [show a :: (t ++ [0]) = (a :: t) ++ [0] by rfl]
    rw [List.reverse_append]
    simp only [List.reverse_cons, List.reverse_nil, List.nil_append,
      List.singleton_append, List.dropWhile_cons, beq_self_eq_true, if_true]
    have hdw : List.dropWhile (fun x => x == 0) (a :: t).reverse = (a :: t).reverse := by
      cases hr : (a :: t).reverse with
      | nil => rfl
      | cons b u =>
        have hb : (b == 0) = false := by
          rw [hr] at hrev
          simp only [List.head?_cons] at hrev
          simp only [beq_eq_false_iff_ne, ne_eq]
          exact fun h => hl (by rw [← hrev, h])
        rw [List.dropWhile_cons]
        simp [hb]
    rw [show t.reverse ++ [a] = (a :: t).reverse by simp]
    rw [hdw, List.reverse_reverse]

/-- After the ASCII normalisation of `__setitem__`, a string without a
trailing NUL receives exactly one. -/
lemma setAscii_eq (s : List Nat) (hl : s.getLast? ≠ some 0) :
    (if s.getLast? = some 0 then s else s ++ [0]) = s ++ [0] := by
  simp [hl]

lemma noTag_append (pre suf : List Entry) (t : Nat) (h1 : noTag pre t)
    (h2 : noTag suf t) : noTag (pre ++ suf) t := by
  intro en hen
  rcases List.mem_append.mp hen with h | h
  · exact h1 en h
  · exact h2 en h

lemma setLoop_found (t dictTy ty0 : Nat) (v w : IfdVal) (pre suf : List Entry)
    (hpre : noTag pre t) :
    setLoop t dictTy v (pre ++ (t, ty0, w) :: suf) =
      pre ++ (if v.isNone then suf else (t, ty0, v) :: suf) := by
  induction pre with
  | nil => simp [setLoop]
  | cons en rest ih =>
    obtain ⟨tag, ty1, w1⟩ := en
    have hne : tag ≠ t := hpre (tag, ty1, w1) (by simp)
    have hrest : noTag rest t := fun x hx => hpre x (by simp [hx])
    simp [setLoop, Ne.symm hne, ih hrest]

lemma pureOk {α : Type} (a : α) : (pure a : Except Err α) = .ok a := rfl

lemma getItem_append_none (es : List Entry) (t ty : Nat) (hes : noTag es t) :
    getItem (es ++ [(t, ty, .vnone)]) t = .ok .vnone := by
  induction es with
  | nil => by_cases h2 : ty = 2 <;> simp [getItem, h2]
  | cons en rest ih =>
    obtain ⟨tag, ty1, w1⟩ := en
    have hne : tag ≠ t := hes (tag, ty1, w1) (by simp)
    have hrest : noTag rest t := fun x hx => hes x (by simp [hx])
    simpa [getItem, Ne.symm hne] using ih hrest

lemma getItem_setLoop_nonAscii (es : List Entry) (t ty : Nat) (v : IfdVal)
    (hty : ty ≠ 2) (hv : v.isNone = false) (htyped : tagTyped es t ty) :
    getItem (setLoop t ty v es) t = .ok v := by
  induction es with
  | nil =>
    simp [setLoop, getItem, hty]
  | cons en rest ih =>
    obtain ⟨tag, ty0, w⟩ := en
    by_cases ht : t = tag
    · subst ht
      have hty0 : ty0 = ty := htyped (t, ty0, w) (by simp) rfl
      simp only [setLoop, if_pos rfl, hv, Bool.false_eq_true, if_false]
      simp [getItem, hty0, hty]
    · have hrest : tagTyped rest t ty := fun x hx hx1 => htyped x (by simp [hx]) hx1
      simp [setLoop, ht, getItem, Ne.symm ht, ih hrest]

lemma getItem_setLoop_ascii (es : List Entry) (t : Nat) (s : List Nat)
    (htyped : tagTyped es t 2) :
    getItem (setLoop t 2 (.vstr s) es) t = .ok (.vstr (pyStrip0 s)) := by
  induction es with
  | nil => simp [setLoop, getItem]
  | cons en rest ih =>
    obtain ⟨tag, ty0, w⟩ := en
    by_cases ht : t = tag
    · subst ht
      have hty0 : ty0 = 2 := htyped (t, ty0, w) (by simp) rfl
      simp [setLoop, IfdVal.isNone, getItem, hty0]
    · have hrest : tagTyped rest t 2 := fun x hx hx1 => htyped x (by simp [hx]) hx1
      simp [setLoop, ht, getItem, Ne.symm ht, ih hrest]

lemma rawFirst_setLoop (es : List Entry) (t dictTy : Nat) (v : IfdVal)
    (hv : v.isNone = false) :
    rawFirst (setLoop t dictTy v es) t = some v := by
  induction es with
  | nil => simp [setLoop, rawFirst]
  | cons en rest ih =>
    obtain ⟨tag, ty0, w⟩ := en
    by_cases ht : t = tag
    · subst ht
      simp [setLoop, hv, rawFirst]
    · simp [setLoop, ht, rawFirst, Ne.symm ht, ih]

/-- C2, counterexample to the claim as stated: on an empty TIFF directory,
setting tag `0x100` (ImageWidth) to the absent value appends a
`(0x100, LONG, None)` entry instead of leaving the entry list without an
entry for the tag — the claim's "the entry for t is removed from the
directory's entry list (whether or not t was present before the set)"
fails when t was absent. -/
theorem C2_counterexample :
    setItem .tiff [] 0x100 .vnone = .ok [(0x100, 4, .vnone)] ∧
    ¬ noTag [(0x100, 4, IfdVal.vnone)] 0x100 := by
  refine ⟨rfl, ?_⟩
  intro h
  exact h (0x100, 4, .vnone) (by simp) rfl

/-- C2 (amended): for a tag `t` whose dictionary entry declares a type
`ty`, on a directory whose `t`-entries are stored with type `ty`:
(1) setting a non-ASCII tag to a non-`None` value `v` and reading it
back yields `v`; (2) setting an ASCII tag to a string with no leading
and no trailing NUL and reading it back yields the string unchanged;
(3) setting a present tag (occurring once) to the absent value removes
its entry and a subsequent get returns absent; (4) setting an absent tag
to the absent value **appends** a `(t, ty, None)` entry (rather than
leaving the list unchanged), and a subsequent get still returns absent. -/
theorem thm_C2 :
    (∀ (k : IfdKind) (es : List Entry) (t ty : Nat) (v : IfdVal),
       tagDict k t = some (some ty) → ty ≠ 2 → v.isNone = false →
       tagTyped es t ty →
       (setItem k es t v).bind (fun es2 => getItem es2 t) = .ok v) ∧
    (∀ (k : IfdKind) (es : List Entry) (t : Nat) (s : List Nat),
       tagDict k t = some (some 2) → tagTyped es t 2 →
       s.head? ≠ some 0 → s.getLast? ≠ some 0 →
       (setItem k es t (.vstr s)).bind (fun es2 => getItem es2 t) = .ok (.vstr s)) ∧
    (∀ (k : IfdKind) (t ty ty0 : Nat) (w : IfdVal) (pre suf : List Entry),
       tagDict k t = some (some ty) → noTag pre t → noTag suf t →
       setItem k (pre ++ (t, ty0, w) :: suf) t .vnone = .ok (pre ++ suf) ∧
       getItem (pre ++ suf) t = .ok .vnone) ∧
    (∀ (k : IfdKind) (es : List Entry) (t ty : Nat),
       tagDict k t = some (some ty) → noTag es t →
       setItem k es t .vnone = .ok (es ++ [(t, ty, .vnone)]) ∧
       getItem (es ++ [(t, ty, .vnone)]) t = .ok .vnone) := by
  refine ⟨?_, ?_, ?_, ?_⟩
  · intro k es t ty v hd hty hv htyped
    have hset : setItem k es t v = .ok (setLoop t ty v es) := by
      simp [setItem, hd, hty, bind, Except.bind, pure, Except.pure]
    rw [hset]
    exact getItem_setLoop_nonAscii es t ty v hty hv htyped
  · intro k es t s hd htyped hh hl
    have hset : setItem k es t (.vstr s) =
        .ok (setLoop t 2 (.vstr (s ++ [0])) es) := by
      simp [setItem, hd, setAscii_eq s hl, bind, Except.bind, pure, Except.pure]
    rw [hset]
    have h1 := getItem_setLoop_ascii es t (s ++ [0]) htyped
    rw [pyStrip0_append_zero s hh hl] at h1
    exact h1
  · intro k t ty ty0 w pre suf hd hpre hsuf
    have hset : setItem k (pre ++ (t, ty0, w) :: suf) t .vnone =
        .ok (setLoop t ty .vnone (pre ++ (t, ty0, w) :: suf)) := by
      by_cases h2 : ty = 2
      · subst h2; simp [setItem, hd, bind, Except.bind, pure, Except.pure]
      · simp [setItem, hd, h2, bind, Except.bind, pure, Except.pure]
    rw [hset, setLoop_found t ty ty0 .vnone w pre suf hpre]
    exact ⟨by simp [IfdVal.isNone], getItem_noTag _ t (noTag_append pre suf t hpre hsuf)⟩
  · intro k es t ty hd hes
    have hset : setItem k es t .vnone = .ok (setLoop t ty .vnone es) := by
      by_cases h2 : ty = 2
      · subst h2; simp [setItem, hd, bind, Except.bind, pure, Except.pure]
      · simp [setItem, hd, h2, bind, Except.bind, pure, Except.pure]
    rw [hset, setLoop_noTag t ty .vnone es hes]
    exact ⟨rfl, getItem_append_none es t ty hes⟩

/-- Witness for the amended C2: concrete instantiations of all four
clauses (TIFF directory; LONG tag `0x100`, ASCII tag `0x10f`). -/
theorem thm_C2_witness :
    ((setItem .tiff [] 0x100 (.vnums [640])).bind (fun es2 => getItem es2 0x100)
      = .ok (.vnums [640])) ∧
    ((setItem .tiff [] 0x10f (.vstr [67, 97, 110, 111, 110])).bind
        (fun es2 => getItem es2 0x10f) = .ok (.vstr [67, 97, 110, 111, 110])) ∧
    (setItem .tiff [(0x100, 4, .vnums [640])] 0x100 .vnone = .ok [] ∧
     getItem ([] : List Entry) 0x100 = .ok .vnone) ∧
    (setItem .tiff [] 0x100 .vnone = .ok [(0x100, 4, .vnone)] ∧
     getItem [(0x100, 4, .vnone)] 0x100 = .ok .vnone) := by
  refine ⟨?_, ?_, ?_, ?_⟩
  · exact thm_C2.1 .tiff [] 0x100 4 (.vnums [640]) rfl (by decide) rfl
      (by intro en hen; simp at hen)
  · exact thm_C2.2.1 .tiff [] 0x10f [67, 97, 110, 111, 110] rfl
      (by intro en hen; simp at hen) (by decide) (by decide)
  · have h := thm_C2.2.2.1 .tiff 0x100 4 4 (.vnums [640]) [] []
      rfl (by intro en hen; simp at hen) (by intro en hen; simp at hen)
    simpa using h
  · exact thm_C2.2.2.2 .tiff [] 0x100 4 rfl (by intro en hen; simp at hen)

/-- C9, counterexample to the claim as stated: decoding a one-entry TIFF
directory whose ASCII value `"abc"` has no trailing NUL stores the value
unchanged — no NUL is appended (the `the_data + '\0'` computed on line
280 of the source is dead, overwritten by line 283), contradicting the
claim's "has one NUL appended". -/
theorem C9_counterexample :
    ifdInit tiffEmbed true .lit 0 ⟨none⟩
        ([1, 0] ++ [0x0e, 0x01, 2, 0, 3, 0, 0, 0, 97, 98, 99, 0] ++ [0, 0, 0, 0])
      = .ok ([(0x10e, 2, .vstr [97, 98, 99])], ⟨none⟩) ∧
    [97, 98, 99] ≠ [97, 98, 99, 0] :=
  ⟨rfl, by decide⟩

/-- C9 (amended): (1) setting an ASCII tag to a string `s` with no
leading and no trailing NUL stores exactly `s ++ [NUL]` on the wire and
reads back as `s`; (2) at decode time an ASCII value is stored exactly
as sliced from the wire — in particular a value lacking a trailing NUL
is **not** NUL-corrected (and not rejected); only an empty ASCII value
errors (`IndexError` on `the_data[-1]`). -/
theorem thm_C9 :
    (∀ (k : IfdKind) (es : List Entry) (t : Nat) (s : List Nat),
       tagDict k t = some (some 2) → tagTyped es t 2 →
       s.head? ≠ some 0 → s.getLast? ≠ some 0 →
       setItem k es t (.vstr s) = .ok (setLoop t 2 (.vstr (s ++ [0])) es) ∧
       rawFirst (setLoop t 2 (.vstr (s ++ [0])) es) t = some (.vstr (s ++ [0])) ∧
       getItem (setLoop t 2 (.vstr (s ++ [0])) es) t = .ok (.vstr s)) ∧
    (∀ (e : Endian) (comps data32 start : Nat) (data : List Nat),
       (if 1 * comps > 4 then pySlice data data32 (data32 + 1 * comps)
        else pySlice data (start + 8) (start + 8 + 1 * comps)) ≠ [] →
       decodeTagValue e 2 comps data32 start data =
         .ok (.vstr (if 1 * comps > 4 then pySlice data data32 (data32 + 1 * comps)
                     else pySlice data (start + 8) (start + 8 + 1 * comps)))) := by
  constructor
  · intro k es t s hd htyped hh hl
    refine ⟨by simp [setItem, hd, setAscii_eq s hl, bind, Except.bind, pure, Except.pure], ?_, ?_⟩
    · exact rawFirst_setLoop es t 2 (.vstr (s ++ [0])) rfl
    · have h1 := getItem_setLoop_ascii es t (s ++ [0]) htyped
      rwa [pyStrip0_append_zero s hh hl] at h1
  · intro e comps data32 start data hne
    have hts : typeSize 2 = some 1 := rfl
    simp only [decodeTagValue, hts]
    simp only [one_mul, gt_iff_lt] at hne ⊢
    cases hL : (if 4 < comps then pySlice data data32 (data32 + comps)
                else pySlice data (start + 8) (start + 8 + comps)).getLast? with
    | none =>
      exfalso
      exact hne (List.getLast?_eq_none_iff.mp hL)
    | some c =>
      simp [bind, Except.bind, hL, pure, Except.pure]

/-- Witness for the amended C9: the ASCII tag `0x10f` (`Make`) set to
`"Canon"` on an empty TIFF directory, and the directory data of the C9
counterexample decoded through `decodeTagValue`. -/
theorem thm_C9_witness :
    (setItem .tiff [] 0x10f (.vstr [67, 97, 110, 111, 110])
       = .ok [(0x10f, 2, .vstr [67, 97, 110, 111, 110, 0])] ∧
     rawFirst [(0x10f, 2, IfdVal.vstr [67, 97, 110, 111, 110, 0])] 0x10f
       = some (.vstr [67, 97, 110, 111, 110, 0]) ∧
     getItem [(0x10f, 2, IfdVal.vstr [67, 97, 110, 111, 110, 0])] 0x10f
       = .ok (.vstr [67, 97, 110, 111, 110])) ∧
    decodeTagValue .lit 2 3 0 2
        ([1, 0] ++ [0x0e, 0x01, 2, 0, 3, 0, 0, 0, 97, 98, 99, 0] ++ [0, 0, 0, 0])
      = .ok (.vstr [97, 98, 99]) := by
  constructor
  · have h := thm_C9.1 .tiff [] 0x10f [67, 97, 110, 111, 110] rfl
      (by intro en hen; simp at hen) (by decide) (by decide)
    simpa [setLoop, rawFirst] using h
  · have h := thm_C9.2 .lit 3 0 2
      ([1, 0] ++ [0x0e, 0x01, 2, 0, 3, 0, 0, 0, 97, 98, 99, 0] ++ [0, 0, 0, 0])
      (by decide)
    simpa using h

/-- C4, counterexample to the claim as stated: encoding an entry whose
decoded type code was UNDEFINED (7) — the typical wire type of a maker
note — writes the wire record with type 7 and count 6 (the byte length
of the nested block), not with type LONG (4) and count 1 as claimed. -/
theorem C4_counterexample :
    encodeEntryStep (getdata 3) .lit 26 (0x927c, 7, .vifd .interop .lit [])
      = .ok ((0x927c, 7, 6, [26, 0, 0, 0]), [0, 0, 0, 0, 0, 0], 32) ∧
    (7 ≠ 4 ∧ 6 ≠ 1) :=
  ⟨rfl, by decide⟩

/-- C4 (amended): when an entry whose value is a nested directory is
encoded, the nested directory is recursively encoded into the
out-of-line area at the current cursor and the wire entry's value field
is the (packed) absolute offset of that block; but the wire entry keeps
the type code the entry carried (`magic_type`), and its component count
is 1 only when that code is LONG (4) — otherwise it is the byte length
of the encoded nested block (`magic_components`). -/
theorem thm_C4 (gd : GdFn) (e : Endian) (dOff tag ty : Nat) (kk : IfdKind)
    (kE : Endian) (kes : List Entry) (sub av : List Nat)
    (hk : kk ≠ .thumbnail)
    (hgd : gd kk kE kes [] e dOff true = .ok (sub, dOff + sub.length))
    (hav : pack32u e (dOff : Int) = .ok av) :
    encodeEntryStep gd e dOff (tag, ty, .vifd kk kE kes)
      = .ok ((tag, ty, if ty = 4 then 1 else sub.length, av), sub, dOff + sub.length) := by
  simp [encodeEntryStep, hk, hgd, hav, bind, Except.bind, pure, Except.pure,
    throw, throwThe, MonadExceptOf.throw]

/-- Witness for the amended C4: a LONG-typed embedded entry encodes with
count 1, at concrete input. -/
theorem thm_C4_witness :
    encodeEntryStep (getdata 3) .lit 26 (0x8769, 4, .vifd .extended .lit [])
      = .ok ((0x8769, 4, 1, [26, 0, 0, 0]), [0, 0, 0, 0, 0, 0], 32) := by
  have h := thm_C4 (getdata 3) .lit 26 0x8769 4 .extended .lit []
    [0, 0, 0, 0, 0, 0] [26, 0, 0, 0] (by decide) rfl rfl
  simpa using h

/-- C7 (confirmed): the thumbnail handler fails with `InvalidFile` when
either the JPEG-offset tag (0x201) or the JPEG-length tag (0x202) is
absent; with both present (as wire-decoded non-negative integers whose
offset lies inside the blob) it fails with `InvalidFile` when fewer than
`size` bytes remain at `offset`, and otherwise captures exactly `size`
bytes starting at `offset`; a successfully decoded thumbnail directory's
blob is exactly what the handler returns on its entries. -/
theorem thm_C7 :
    (∀ (es : List Entry) (data : List Nat) (o? s? : Option PyScalar),
       thumbScan es none none = .ok (o?, s?) → (o? = none ∨ s? = none) →
       thumbHandler es data = .error .invalidFile) ∧
    (∀ (es : List Entry) (data : List Nat) (o s : Int),
       thumbScan es none none = .ok (some (.int o), some (.int s)) →
       0 ≤ o → 0 ≤ s → o.toNat ≤ data.length →
       ((o.toNat + s.toNat ≤ data.length →
          thumbHandler es data = .ok ((data.drop o.toNat).take s.toNat) ∧
          ((data.drop o.toNat).take s.toNat).length = s.toNat) ∧
        (data.length < o.toNat + s.toNat →
          thumbHandler es data = .error .invalidFile))) ∧
    (∀ (e : Endian) (off : Nat) (st : ExifState) (data : List Nat)
       (ti : TopIfd) (st2 : ExifState),
       thumbInit e off st data = .ok (ti, st2) →
       thumbHandler ti.entries data = .ok ti.jpegData) := by
  refine ⟨?_, ?_, ?_⟩
  · intro es data o? s? hscan hor
    unfold thumbHandler
    rw [hscan]
    rcases hor with h | h
    · subst h
      cases s? <;> simp [bind, Except.bind, throw, throwThe, MonadExceptOf.throw]
    · subst h
      cases o? <;> simp [bind, Except.bind, throw, throwThe, MonadExceptOf.throw]
  · intro es data o s hscan ho hs holen
    have htn : (o + s).toNat = o.toNat + s.toNat := Int.toNat_add ho hs
    have hidxo : pyIdx data.length o = o.toNat := by
      simp [pyIdx, Int.not_lt.mpr ho, Nat.min_eq_left holen]
    have hnneg : ¬ o + s < 0 := Int.not_lt.mpr (by omega)
    have hsnat : (s.toNat : Int) = s := Int.toNat_of_nonneg hs
    have hred : thumbHandler es data =
        (if ((pySliceI data o (o + s)).length : Int) ≠ s then throw .invalidFile
         else pure (pySliceI data o (o + s))) := by
      unfold thumbHandler
      rw [hscan]
      rfl
    constructor
    · intro hle
      have hidxb : pyIdx data.length (o + s) = o.toNat + s.toNat := by
        simp [pyIdx, hnneg, htn, Nat.min_eq_left hle]
      have hjd : pySliceI data o (o + s) = (data.drop o.toNat).take s.toNat := by
        simp [pySliceI, hidxo, hidxb]
      have hlen : ((data.drop o.toNat).take s.toNat).length = s.toNat := by
        simp only [List.length_take, List.length_drop]
        omega
      refine ⟨?_, hlen⟩
      rw [hred, hjd]
      have hcast : ¬ (((data.drop o.toNat).take s.toNat).length : Int) ≠ s := by
        rw [hlen, hsnat]
        exact not_not_intro rfl
      rw [if_neg hcast]
      rfl
    · intro hgt
      have hidxb : pyIdx data.length (o + s) = data.length := by
        simp [pyIdx, hnneg, htn,
          Nat.min_eq_right (by omega : data.length ≤ o.toNat + s.toNat)]
      have hjd : pySliceI data o (o + s) = (data.drop o.toNat).take (data.length - o.toNat) := by
        simp [pySliceI, hidxo, hidxb]
      have hlen : ((data.drop o.toNat).take (data.length - o.toNat)).length
          = data.length - o.toNat := by
        simp only [List.length_take, List.length_drop]
        omega
      have hcast : (((data.drop o.toNat).take (data.length - o.toNat)).length : Int) ≠ s := by
        rw [hlen]
        intro hcontra
        omega
      rw [hred, hjd, if_pos hcast]
      rfl
  · intro e off st data ti st2 h
    unfold thumbInit at h
    cases hi : ifdInit tiffEmbed true e off st data with
    | error er =>
      rw [hi] at h
      exact absurd h (by simp [bind, Except.bind])
    | ok p =>
      rw [hi] at h
      obtain ⟨es, st'⟩ := p
      cases hh : thumbHandler es data with
      | error er =>
        rw [show (do
              let (es, st2) ← (Except.ok (es, st') : Except Err (List Entry × ExifState))
              let jd ← thumbHandler es data
              pure ((⟨.thumbnail, e, es, jd⟩ : TopIfd), st2)) =
            (thumbHandler es data).bind (fun jd =>
              pure ((⟨.thumbnail, e, es, jd⟩ : TopIfd), st')) from rfl, hh] at h
        exact absurd h (by simp [Except.bind])
      | ok jd =>
        rw [show (do
              let (es, st2) ← (Except.ok (es, st') : Except Err (List Entry × ExifState))
              let jd ← thumbHandler es data
              pure ((⟨.thumbnail, e, es, jd⟩ : TopIfd), st2)) =
            (thumbHandler es data).bind (fun jd =>
              pure ((⟨.thumbnail, e, es, jd⟩ : TopIfd), st')) from rfl, hh] at h
        simp only [Except.bind, pure, Except.pure, Except.ok.injEq, Prod.mk.injEq] at h
        obtain ⟨hti, _⟩ := h
        rw [← hti]
        simpa using hh

/-- Witness for C7: a directory missing the offset tag fails; a
directory with offset 2 and size 3 over a 6-byte blob captures exactly
bytes 2..4; the same directory over a 4-byte blob fails; a concrete
thumbnail directory decode captures its declared blob. -/
theorem thm_C7_witness :
    thumbHandler [(0x202, 4, .vnums [3])] [9, 9, 7] = .error .invalidFile ∧
    thumbHandler [(0x201, 4, .vnums [2]), (0x202, 4, .vnums [3])] [9, 9, 7, 7, 7, 9]
      = .ok [7, 7, 7] ∧
    thumbHandler [(0x201, 4, .vnums [2]), (0x202, 4, .vnums [3])] [9, 9, 7, 7]
      = .error .invalidFile ∧
    thumbHandler [(0x201, 4, IfdVal.vnums [30]), (0x202, 4, IfdVal.vnums [2])]
        ([2, 0] ++ [0x01, 0x02, 4, 0, 1, 0, 0, 0, 30, 0, 0, 0]
          ++ [0x02, 0x02, 4, 0, 1, 0, 0, 0, 2, 0, 0, 0] ++ [0, 0, 0, 0] ++ [9, 9])
      = .ok [9, 9] := by
  refine ⟨?_, ?_, ?_, ?_⟩
  · exact thm_C7.1 [(0x202, 4, .vnums [3])] [9, 9, 7] none (some (.int 3)) rfl
      (Or.inl rfl)
  · have h := (thm_C7.2.1 [(0x201, 4, .vnums [2]), (0x202, 4, .vnums [3])]
      [9, 9, 7, 7, 7, 9] 2 3 rfl (by decide) (by decide) (by decide)).1 (by decide)
    simpa using h.1
  · exact (thm_C7.2.1 [(0x201, 4, .vnums [2]), (0x202, 4, .vnums [3])]
      [9, 9, 7, 7] 2 3 rfl (by decide) (by decide) (by decide)).2 (by decide)
  · have hinit : thumbInit .lit 0 ⟨none⟩
        ([2, 0] ++ [0x01, 0x02, 4, 0, 1, 0, 0, 0, 30, 0, 0, 0]
          ++ [0x02, 0x02, 4, 0, 1, 0, 0, 0, 2, 0, 0, 0] ++ [0, 0, 0, 0] ++ [9, 9])
        = .ok (⟨.thumbnail, .lit,
            [(0x201, 4, .vnums [30]), (0x202, 4, .vnums [2])], [9, 9]⟩, ⟨none⟩) := rfl
    have h := thm_C7.2.2 .lit 0 ⟨none⟩
      ([2, 0] ++ [0x01, 0x02, 4, 0, 1, 0, 0, 0, 30, 0, 0, 0]
        ++ [0x02, 0x02, 4, 0, 1, 0, 0, 0, 2, 0, 0, 0] ++ [0, 0, 0, 0] ++ [9, 9])
      ⟨.thumbnail, .lit, [(0x201, 4, .vnums [30]), (0x202, 4, .vnums [2])], [9, 9]⟩
      ⟨none⟩ hinit
    simpa using h

/-- An APP1 payload of at least six bytes whose NUL-stripped head is not
`"Exif"` yields the opaque default segment (the Exif decoder's
`InvalidSegment` is caught by the constructor loop). -/
lemma buildSegKind_default (data : List Nat) (h6 : 6 ≤ data.length)
    (hsig : pyStrip0 (data.take 6) ≠ exifWord) :
    buildSegKind 0xe1 data = .ok .default := by
  have hred : parseExifData data = .error .invalidSegment := by
    unfold parseExifData
    rw [if_neg (by omega : ¬ data.length < 6)]
    simp only [bind, Except.bind, pure, Except.pure]
    rw [if_pos hsig]
  simp [buildSegKind, hred]

/-- C10 (confirmed): (1) an APP1 payload of at least six bytes whose
NUL-stripped 6-byte head is not `"Exif"` is decoded as an opaque
`DefaultSegment` (the `InvalidSegment` of the Exif decoder is caught);
(2) `get_exif` selects the first segment whose marker is APP1 whatever
its decoded class; (3) concretely, a file whose APP1 segment carries an
XMP-style payload parses, and `get_exif` returns that opaque segment —
an object that is not an `ExifSegment`. -/
theorem thm_C10 :
    (∀ data : List Nat, 6 ≤ data.length → pyStrip0 (data.take 6) ≠ exifWord →
       buildSegKind 0xe1 data = .ok .default) ∧
    (∀ (pre suf : List Seg) (s : Seg),
       (∀ t ∈ pre, t.marker ≠ 0xe1) → s.marker = 0xe1 →
       getExifSeg ⟨pre ++ s :: suf⟩ = some s) ∧
    (parseJpeg xmpFile = .ok [⟨0xe1, xmpPayload, .default⟩] ∧
     getExif ⟨[⟨0xe1, xmpPayload, .default⟩]⟩ false
       = (some ⟨0xe1, xmpPayload, .default⟩, ⟨[⟨0xe1, xmpPayload, .default⟩]⟩)) := by
  refine ⟨?_, ?_, rfl, rfl⟩
  · intro data h6 hsig
    exact buildSegKind_default data h6 hsig
  · intro pre suf s hpre hs
    induction pre with
    | nil => simp [getExifSeg, List.find?_cons, hs]
    | cons t rest ih =>
      have hne : t.marker ≠ 0xe1 := hpre t (by simp)
      have hrest : ∀ u ∈ rest, u.marker ≠ 0xe1 := fun u hu => hpre u (by simp [hu])
      have h1 := ih hrest
      simp only [getExifSeg] at h1 ⊢
      simpa [List.find?_cons, hne] using h1

/-- Witness for C10: the XMP payload instantiates the general clauses. -/
theorem thm_C10_witness :
    buildSegKind 0xe1 xmpPayload = .ok .default ∧
    getExifSeg ⟨[⟨0xe0, [], .default⟩, ⟨0xe1, xmpPayload, .default⟩]⟩
      = some ⟨0xe1, xmpPayload, .default⟩ := by
  constructor
  · exact thm_C10.1 xmpPayload (by decide) (by decide)
  · exact thm_C10.2.1 [⟨0xe0, [], .default⟩] [] ⟨0xe1, xmpPayload, .default⟩
      (by intro t ht; simp at ht; rw [ht]; decide) rfl

/-- C8, counterexample to the claim as stated: on a file with no
segments, `get_exif(create=True)` inserts an empty Exif segment; writing
the file succeeds, but re-decoding the written bytes fails with
`struct.error` (the encoder hardcodes a first-directory offset of 8 even
with no directories, and the re-decoder then reads past the end of the
8-byte TIFF blob), so the re-decoded file never "finds the segment". -/
theorem C8_counterexample :
    (writeJpeg 5 [(addExif ⟨[]⟩).1]).bind parseJpeg = .error .structError := rfl

/-- C8 (amended): on a file with no APP1 segment, `get_exif(create =
false)` returns absent; `get_exif(create = true)` constructs the empty
Exif segment, inserts it at the very front of the segment list and
returns it.  Encoding the file then succeeds, but re-decoding fails with
`struct.error` while the Exif segment has no directory; once a primary
directory is created (`get_primary(create=True)`), encoding and
re-decoding finds the APP1 segment and its primary directory. -/
theorem thm_C8 :
    (∀ j : JpegFileM, (∀ s ∈ j.segments, s.marker ≠ 0xe1) →
       getExif j false = (none, j)) ∧
    (∀ j : JpegFileM, (∀ s ∈ j.segments, s.marker ≠ 0xe1) →
       getExif j true = (some ⟨0xe1, [], .exifK emptyExifParsed⟩,
         ⟨⟨0xe1, [], .exifK emptyExifParsed⟩ :: j.segments⟩)) ∧
    (getPrimary emptyExifParsed true
       = (some ⟨.tiff, .lit, [], []⟩, ⟨.lit, iiWord, [⟨.tiff, .lit, [], []⟩], none⟩) ∧
     ((writeJpeg 5 [⟨0xe1, [], .exifK ⟨.lit, iiWord, [⟨.tiff, .lit, [], []⟩], none⟩⟩]).bind
         parseJpeg).map (fun segs => (getExifSeg ⟨segs⟩).map exifIfdKinds)
       = .ok (some [.tiff])) := by
  have hfind : ∀ j : JpegFileM, (∀ s ∈ j.segments, s.marker ≠ 0xe1) →
      getExifSeg j = none := by
    intro j hj
    unfold getExifSeg
    rw [List.find?_eq_none]
    intro s hsj
    simpa using hj s hsj
  refine ⟨?_, ?_, rfl, rfl⟩
  · intro j hj
    simp [getExif, hfind j hj]
  · intro j hj
    simp [getExif, hfind j hj, addExif]

/-- Witness for the amended C8: the empty file instantiates the two
general clauses. -/
theorem thm_C8_witness :
    getExif ⟨[]⟩ false = (none, ⟨[]⟩) ∧
    getExif ⟨[]⟩ true = (some ⟨0xe1, [], .exifK emptyExifParsed⟩,
      ⟨[⟨0xe1, [], .exifK emptyExifParsed⟩]⟩) := by
  constructor
  · exact thm_C8.1 ⟨[]⟩ (by intro s hs; simp at hs)
  · exact thm_C8.2.1 ⟨[]⟩ (by intro s hs; simp at hs)

/-- C6, counterexample to the claim as stated: a structurally valid JPEG
whose Exif metadata names the unsupported maker `"Nikon"` and carries a
maker-note tag does **not** leave "the rest of the file" decoded — the
`InvalidFile` raised by the maker-note dispatch propagates out of
`JpegFile.__init__` and the whole load fails. -/
theorem C6_counterexample : parseJpeg nikonFile = .error .invalidFile := rfl

/-- C6 (amended): maker-note decode dispatches on the manufacturer
string captured from the Primary directory's `Make` tag: for a Canon
file the maker-note directory is decoded little-endian regardless of the
endianness parameter; for a FUJIFILM file the 8 bytes at the maker-note
offset must equal `"FUJIFILM"` (else `InvalidFile`) and the nested
directory is decoded little-endian relative to the start of the
maker-note block (`data[offset:]`); for any other manufacturer string
the dispatch raises `InvalidFile` — which, being uncaught, aborts the
decode of the whole file (shown by the counterexample), not just of the
sub-structure. -/
theorem thm_C6 :
    (∀ (e1 e2 : Endian) (off : Nat) (st : ExifState) (data : List Nat),
       st.make = some canonWord →
       ifdMakerNote e1 off st data = ifdMakerNote e2 off st data) ∧
    (∀ (e : Endian) (off : Nat) (st : ExifState) (data : List Nat),
       st.make = some canonWord →
       ifdMakerNote e off st data =
         (ifdInit noEmbed false .lit off st data).map
           (fun p => (.vifd .canon .lit p.1, p.2))) ∧
    (∀ (e : Endian) (off : Nat) (st : ExifState) (data : List Nat),
       st.make = some fujiWord → pySlice data off (off + 8) ≠ fujiWord →
       ifdMakerNote e off st data = .error .invalidFile) ∧
    (∀ (e : Endian) (off : Nat) (st : ExifState) (data : List Nat) (io2 : Nat),
       st.make = some fujiWord → pySlice data off (off + 8) = fujiWord →
       unpack32 .lit (pySlice data (off + 8) (off + 12)) = .ok io2 →
       ifdMakerNote e off st data =
         (ifdInit noEmbed false .lit io2 st (data.drop off)).map
           (fun p => (.vifd .fuji .lit p.1, p.2))) ∧
    (∀ (e : Endian) (off : Nat) (st : ExifState) (data mk : List Nat),
       st.make = some mk → mk ≠ canonWord → mk ≠ fujiWord →
       ifdMakerNote e off st data = .error .invalidFile) := by
  refine ⟨?_, ?_, ?_, ?_, ?_⟩
  · intro e1 e2 off st data hmk
    simp [ifdMakerNote, hmk, bind, Except.bind, pure, Except.pure]
  · intro e off st data hmk
    simp only [ifdMakerNote, hmk, bind, Except.bind, pure, Except.pure, if_pos rfl]
    cases h : ifdInit noEmbed false .lit off st data with
    | error er => simp [h, Except.map]
    | ok p => simp [h, Except.map]
  · intro e off st data hmk hhdr
    have hfc : fujiWord ≠ canonWord := by decide
    simp [ifdMakerNote, hmk, bind, Except.bind, pure, Except.pure,
      throw, throwThe, MonadExceptOf.throw, hfc, hhdr]
  · intro e off st data io2 hmk hhdr hio
    have hfc : fujiWord ≠ canonWord := by decide
    unfold ifdMakerNote
    rw [hmk]
    simp only [bind, Except.bind, pure, Except.pure, hfc, hhdr, hio, ne_eq,
      not_true_eq_false, if_false, ite_false, ite_true, if_pos rfl,
      Bool.false_eq_true]
    cases h : ifdInit noEmbed false .lit io2 st (data.drop off) with
    | error er => simp [h, Except.map, Except.bind]
    | ok p => simp [h, Except.map, Except.bind, pure, Except.pure]
  · intro e off st data mk hmk hc hf
    simp [ifdMakerNote, hmk, bind, Except.bind, pure, Except.pure,
      throw, throwThe, MonadExceptOf.throw, hc, hf]

/-- Witness for the amended C6: a Canon maker-note decoded with both
endiannesses gives the same little-endian result; a FujiFilm maker note
with a good header decodes block-relative; a bad Fuji header and an
unknown maker fail with `InvalidFile`. -/
theorem thm_C6_witness :
    ifdMakerNote .big 0 ⟨some canonWord⟩ [0, 0, 0, 0, 0, 0]
      = ifdMakerNote .lit 0 ⟨some canonWord⟩ [0, 0, 0, 0, 0, 0] ∧
    ifdMakerNote .big 0 ⟨some canonWord⟩ [0, 0, 0, 0, 0, 0]
      = .ok (.vifd .canon .lit [], ⟨some canonWord⟩) ∧
    ifdMakerNote .big 0 ⟨some fujiWord⟩ (fujiWord ++ [12, 0, 0, 0] ++ [0, 0, 0, 0, 0, 0])
      = .ok (.vifd .fuji .lit [], ⟨some fujiWord⟩) ∧
    ifdMakerNote .big 0 ⟨some fujiWord⟩ [0, 0, 0, 0, 0, 0, 0, 0, 0, 0, 0, 0]
      = .error .invalidFile ∧
    ifdMakerNote .big 0 ⟨some [78, 105, 107, 111, 110]⟩ [0, 0, 0, 0, 0, 0]
      = .error .invalidFile := by
  refine ⟨?_, ?_, ?_, ?_, ?_⟩
  · exact thm_C6.1 .big .lit 0 ⟨some canonWord⟩ [0, 0, 0, 0, 0, 0] rfl
  · have h := thm_C6.2.1 .big 0 ⟨some canonWord⟩ [0, 0, 0, 0, 0, 0] rfl
    simpa using h
  · have hio : unpack32 .lit
        (pySlice (fujiWord ++ [12, 0, 0, 0] ++ [0, 0, 0, 0, 0, 0]) (0 + 8) (0 + 12))
        = .ok 12 := rfl
    have h := thm_C6.2.2.2.1 .big 0 ⟨some fujiWord⟩
      (fujiWord ++ [12, 0, 0, 0] ++ [0, 0, 0, 0, 0, 0]) 12 rfl (by decide) hio
    simpa using h
  · exact thm_C6.2.2.1 .big 0 ⟨some fujiWord⟩
      [0, 0, 0, 0, 0, 0, 0, 0, 0, 0, 0, 0] rfl (by decide)
  · exact thm_C6.2.2.2.2 .big 0 ⟨some [78, 105, 107, 111, 110]⟩
      [0, 0, 0, 0, 0, 0] [78, 105, 107, 111, 110] rfl (by decide) (by decide)

lemma tiffInit_kind (e : Endian) (off : Nat) (st : ExifState) (td : List Nat)
    (i1 : TopIfd) (st1 : ExifState) (h : tiffInit e off st td = .ok (i1, st1)) :
    i1.kind = .tiff := by
  unfold tiffInit at h
  cases hi : ifdInit tiffEmbed true e off st td with
  | error er => rw [hi] at h; exact absurd h (by simp [Except.map])
  | ok p =>
    rw [hi] at h
    simp only [Except.map, Except.ok.injEq, Prod.mk.injEq] at h
    rw [← h.1]

lemma thumbInit_kind (e : Endian) (off : Nat) (st : ExifState) (td : List Nat)
    (i2 : TopIfd) (st2 : ExifState) (h : thumbInit e off st td = .ok (i2, st2)) :
    i2.kind = .thumbnail := by
  unfold thumbInit at h
  cases hi : ifdInit tiffEmbed true e off st td with
  | error er => rw [hi] at h; exact absurd h (by simp [bind, Except.bind])
  | ok p =>
    rw [hi] at h
    obtain ⟨es, st'⟩ := p
    cases hh : thumbHandler es td with
    | error er =>
      rw [show (do
            let (es, st2) ← (Except.ok (es, st') : Except Err (List Entry × ExifState))
            let jd ← thumbHandler es td
            pure ((⟨.thumbnail, e, es, jd⟩ : TopIfd), st2)) =
          (thumbHandler es td).bind (fun jd =>
            pure ((⟨.thumbnail, e, es, jd⟩ : TopIfd), st')) from rfl, hh] at h
      exact absurd h (by simp [Except.bind])
    | ok jd =>
      rw [show (do
            let (es, st2) ← (Except.ok (es, st') : Except Err (List Entry × ExifState))
            let jd ← thumbHandler es td
            pure ((⟨.thumbnail, e, es, jd⟩ : TopIfd), st2)) =
          (thumbHandler es td).bind (fun jd =>
            pure ((⟨.thumbnail, e, es, jd⟩ : TopIfd), st')) from rfl, hh] at h
      simp only [Except.bind, pure, Except.pure, Except.ok.injEq, Prod.mk.injEq] at h
      rw [← h.1]

/-- Any successful run of the directory chain yields at most two
directories: the first of TIFF kind, the second of thumbnail kind. -/
lemma chain_kinds (e : Endian) (td : List Nat) (o : Nat) (st : ExifState)
    (r : List TopIfd) (st2 : ExifState)
    (h : parseIfdChain e td o st = .ok (r, st2)) :
    r.map TopIfd.kind = [IfdKind.tiff, IfdKind.thumbnail].take r.length := by
  unfold parseIfdChain at h
  by_cases ho : o = 0
  · rw [if_pos ho] at h
    simp only [Except.ok.injEq, Prod.mk.injEq] at h
    rw [← h.1]
    rfl
  rw [if_neg ho] at h
  simp only [bind, Except.bind] at h
  cases hu1 : unpack16 e (pySlice td o (o + 2)) with
  | error er => rw [hu1] at h; exact absurd h (by simp)
  | ok n1 =>
  rw [hu1] at h
  simp only at h
  cases ht1 : tiffInit e o st td with
  | error er => rw [ht1] at h; exact absurd h (by simp)
  | ok p1 =>
  rw [ht1] at h
  simp only at h
  obtain ⟨i1, st1⟩ := p1
  cases hu2 : unpack32 e (pySlice td (2 + o + 12 * n1) (2 + o + 12 * n1 + 4)) with
  | error er => rw [hu2] at h; exact absurd h (by simp)
  | ok o2 =>
  rw [hu2] at h
  simp only at h
  by_cases ho2 : o2 = 0
  · rw [if_pos ho2] at h
    simp only [Except.ok.injEq, Prod.mk.injEq] at h
    rw [← h.1]
    simp [tiffInit_kind e o st td i1 st1 ht1]
  rw [if_neg ho2] at h
  cases hu3 : unpack16 e (pySlice td o2 (o2 + 2)) with
  | error er => rw [hu3] at h; exact absurd h (by simp)
  | ok n2 =>
  rw [hu3] at h
  simp only at h
  cases ht2 : thumbInit e o2 st1 td with
  | error er => rw [ht2] at h; exact absurd h (by simp)
  | ok p2 =>
  rw [ht2] at h
  simp only at h
  obtain ⟨i2, st2'⟩ := p2
  cases hu4 : unpack32 e (pySlice td (2 + o2 + 12 * n2) (2 + o2 + 12 * n2 + 4)) with
  | error er => rw [hu4] at h; exact absurd h (by simp)
  | ok o3 =>
  rw [hu4] at h
  simp only at h
  by_cases ho3 : o3 = 0
  · rw [if_pos ho3] at h
    simp only [Except.ok.injEq, Prod.mk.injEq] at h
    rw [← h.1]
    simp [tiffInit_kind e o st td i1 st1 ht1, thumbInit_kind e o2 st1 td i2 st2' ht2]
  rw [if_neg ho3] at h
  cases hu5 : unpack16 e (pySlice td o3 (o3 + 2)) with
  | error er => rw [hu5] at h; exact absurd h (by simp)
  | ok n3 =>
  rw [hu5] at h
  simp only at h
  exact absurd h (by simp [throw, throwThe, MonadExceptOf.throw])

/-- C3, counterexample to the claim as stated: the 6-byte signature
`"\0Exif\0"` differs from `"Exif\0\0"` yet does **not** raise
`InvalidSegment` — the decoder compares the NUL-*stripped* signature
with `"Exif"`, so this payload parses successfully. -/
theorem C3_counterexample :
    parseExifData ([0, 69, 120, 105, 102, 0] ++ iiWord ++ [42, 0] ++ [0, 0, 0, 0])
      = .ok ⟨.lit, iiWord, [], none⟩ ∧
    [0, 69, 120, 105, 102, 0] ≠ exifHeader :=
  ⟨rfl, by decide⟩

/-- C3 (amended): for an APP1 payload of at least six bytes, a 6-byte
signature whose NUL-stripped form is not `"Exif"` raises the recoverable
`InvalidSegment` (caught by the framer, which falls back to an opaque
segment — clause 1 of C10's theorem); signatures such as `"\0Exif\0"`
that strip to `"Exif"` are accepted even though they differ from
`"Exif\0\0"`.  An endian marker other than `"II"`/`"MM"` raises the
fatal `InvalidFile`; a TIFF magic value other than 0x2A raises the fatal
`InvalidFile`; a chain with a third top-level directory raises the fatal
`InvalidFile`; and any successful decode yields at most two directories,
the first Primary/TIFF and the second Thumbnail. -/
theorem thm_C3 :
    (∀ data : List Nat, 6 ≤ data.length → pyStrip0 (data.take 6) ≠ exifWord →
       parseExifData data = .error .invalidSegment) ∧
    (∀ data : List Nat, 6 ≤ data.length → pyStrip0 (data.take 6) = exifWord →
       (data.drop 6).take 2 ≠ iiWord → (data.drop 6).take 2 ≠ mmWord →
       parseExifData data = .error .invalidFile) ∧
    (∀ (data : List Nat) (e : Endian) (tg off : Nat),
       6 ≤ data.length → pyStrip0 (data.take 6) = exifWord →
       (((data.drop 6).take 2 = iiWord ∧ e = .lit) ∨
        ((data.drop 6).take 2 = mmWord ∧ e = .big)) →
       unpackHI e (pySlice (data.drop 6) 2 8) = .ok (tg, off) → tg ≠ 42 →
       parseExifData data = .error .invalidFile) ∧
    (∀ (e : Endian) (td : List Nat) (o1 : Nat) (st : ExifState)
       (n1 : Nat) (i1 : TopIfd) (st1 : ExifState) (o2 n2 : Nat) (i2 : TopIfd)
       (st2 : ExifState) (o3 n3 : Nat),
       o1 ≠ 0 →
       unpack16 e (pySlice td o1 (o1 + 2)) = .ok n1 →
       tiffInit e o1 st td = .ok (i1, st1) →
       unpack32 e (pySlice td (2 + o1 + 12 * n1) (2 + o1 + 12 * n1 + 4)) = .ok o2 →
       o2 ≠ 0 →
       unpack16 e (pySlice td o2 (o2 + 2)) = .ok n2 →
       thumbInit e o2 st1 td = .ok (i2, st2) →
       unpack32 e (pySlice td (2 + o2 + 12 * n2) (2 + o2 + 12 * n2 + 4)) = .ok o3 →
       o3 ≠ 0 →
       unpack16 e (pySlice td o3 (o3 + 2)) = .ok n3 →
       parseIfdChain e td o1 st = .error .invalidFile) ∧
    (∀ (data : List Nat) (ex : ExifParsed), parseExifData data = .ok ex →
       ex.ifds.map TopIfd.kind = [IfdKind.tiff, IfdKind.thumbnail].take ex.ifds.length) := by
  refine ⟨?_, ?_, ?_, ?_, ?_⟩
  · intro data h6 hsig
    unfold parseExifData
    rw [if_neg (by omega : ¬ data.length < 6)]
    simp only [bind, Except.bind, pure, Except.pure]
    rw [if_pos hsig]
  · intro data h6 hsig hii hmm
    unfold parseExifData
    rw [if_neg (by omega : ¬ data.length < 6)]
    simp only [bind, Except.bind, pure, Except.pure]
    rw [if_neg (not_not_intro hsig)]
    simp [hii, hmm, bind, Except.bind, throw, throwThe, MonadExceptOf.throw]
  · intro data e tg off h6 hsig hor hHI htg
    unfold parseExifData
    rw [if_neg (by omega : ¬ data.length < 6)]
    simp only [bind, Except.bind, pure, Except.pure]
    rw [if_neg (not_not_intro hsig)]
    rcases hor with ⟨hii, he⟩ | ⟨hmm, he⟩ <;> subst he
    · rw [if_pos hii]
      simp only [bind, Except.bind, pure, Except.pure, hHI]
      rw [if_pos htg]
    · rw [if_neg (by rw [hmm]; decide), if_pos hmm]
      simp only [bind, Except.bind, pure, Except.pure, hHI]
      rw [if_pos htg]
  · intro e td o1 st n1 i1 st1 o2 n2 i2 st2 o3 n3 ho1 hu1 ht1 hu2 ho2 hu3 ht2 hu4 ho3 hu5
    unfold parseIfdChain
    rw [if_neg ho1]
    simp only [bind, Except.bind, hu1, ht1, hu2]
    rw [if_neg ho2]
    simp only [hu3, ht2, hu4]
    rw [if_neg ho3]
    simp only [hu5]
    rfl
  · intro data ex hok
    unfold parseExifData at hok
    by_cases h6 : data.length < 6
    · rw [if_pos h6] at hok
      exact absurd hok (by simp [bind, Except.bind, throw, throwThe, MonadExceptOf.throw])
    rw [if_neg h6] at hok
    simp only [bind, Except.bind, pure, Except.pure] at hok
    by_cases hsig : pyStrip0 (data.take 6) ≠ exifWord
    · rw [if_pos hsig] at hok
      exact absurd hok (by simp [throw, throwThe, MonadExceptOf.throw])
    rw [if_neg hsig] at hok
    by_cases hii : (data.drop 6).take 2 = iiWord
    · rw [if_pos hii] at hok
      cases hHI : unpackHI .lit (pySlice (data.drop 6) 2 8) with
      | error er => rw [hHI] at hok; exact absurd hok (by simp)
      | ok p =>
        rw [hHI] at hok
        simp only at hok
        obtain ⟨tg, off⟩ := p
        by_cases htg : tg ≠ 42
        · rw [if_pos htg] at hok
          exact absurd hok (by simp [throw, throwThe, MonadExceptOf.throw])
        rw [if_neg htg] at hok
        cases hch : parseIfdChain .lit (data.drop 6) off ⟨none⟩ with
        | error er => rw [hch] at hok; exact absurd hok (by simp)
        | ok p2 =>
          rw [hch] at hok
          simp only at hok
          obtain ⟨r, stf⟩ := p2
          simp only [Except.ok.injEq] at hok
          rw [← hok]
          exact chain_kinds .lit (data.drop 6) off ⟨none⟩ r stf hch
    rw [if_neg hii] at hok
    by_cases hmm : (data.drop 6).take 2 = mmWord
    · rw [if_pos hmm] at hok
      cases hHI : unpackHI .big (pySlice (data.drop 6) 2 8) with
      | error er => rw [hHI] at hok; exact absurd hok (by simp)
      | ok p =>
        rw [hHI] at hok
        simp only at hok
        obtain ⟨tg, off⟩ := p
        by_cases htg : tg ≠ 42
        · rw [if_pos htg] at hok
          exact absurd hok (by simp [throw, throwThe, MonadExceptOf.throw])
        rw [if_neg htg] at hok
        cases hch : parseIfdChain .big (data.drop 6) off ⟨none⟩ with
        | error er => rw [hch] at hok; exact absurd hok (by simp)
        | ok p2 =>
          rw [hch] at hok
          simp only at hok
          obtain ⟨r, stf⟩ := p2
          simp only [Except.ok.injEq] at hok
          rw [← hok]
          exact chain_kinds .big (data.drop 6) off ⟨none⟩ r stf hch
    rw [if_neg hmm] at hok
    exact absurd hok (by simp [throw, throwThe, MonadExceptOf.throw])

/-- Witness for the amended C3: concrete payloads exercising the
signature, endian, magic, third-directory and positive clauses. -/
theorem thm_C3_witness :
    parseExifData [88, 77, 80, 0, 0, 0, 73, 73, 42, 0] = .error .invalidSegment ∧
    parseExifData (exifHeader ++ [74, 74] ++ [42, 0, 8, 0, 0, 0]) = .error .invalidFile ∧
    parseExifData (exifHeader ++ iiWord ++ [43, 0, 8, 0, 0, 0]) = .error .invalidFile ∧
    parseIfdChain .lit chainTd 8 ⟨none⟩ = .error .invalidFile ∧
    (parseExifData ([0, 69, 120, 105, 102, 0] ++ iiWord ++ [42, 0] ++ [0, 0, 0, 0])).map
      (fun ex => ex.ifds.map TopIfd.kind) = .ok [] := by
  refine ⟨?_, ?_, ?_, ?_, ?_⟩
  · exact thm_C3.1 [88, 77, 80, 0, 0, 0, 73, 73, 42, 0] (by decide) (by decide)
  · exact thm_C3.2.1 (exifHeader ++ [74, 74] ++ [42, 0, 8, 0, 0, 0])
      (by decide) (by decide) (by decide) (by decide)
  · have hHI : unpackHI .lit
        (pySlice ((exifHeader ++ iiWord ++ [43, 0, 8, 0, 0, 0]).drop 6) 2 8)
        = .ok (43, 8) := rfl
    exact thm_C3.2.2.1 (exifHeader ++ iiWord ++ [43, 0, 8, 0, 0, 0]) .lit 43 8
      (by decide) (by decide) (Or.inl ⟨by decide, rfl⟩) hHI (by decide)
  · have hu1 : unpack16 .lit (pySlice chainTd 8 (8 + 2)) = .ok 0 := rfl
    have ht1 : tiffInit .lit 8 ⟨none⟩ chainTd
        = .ok (⟨.tiff, .lit, [], []⟩, ⟨none⟩) := rfl
    have hu2 : unpack32 .lit (pySlice chainTd (2 + 8 + 12 * 0)
        (2 + 8 + 12 * 0 + 4)) = .ok 14 := rfl
    have hu3 : unpack16 .lit (pySlice chainTd 14 (14 + 2)) = .ok 2 := rfl
    have ht2 : thumbInit .lit 14 ⟨none⟩ chainTd
        = .ok (⟨.thumbnail, .lit,
            [(0x201, 4, .vnums [0]), (0x202, 4, .vnums [0])], []⟩, ⟨none⟩) := rfl
    have hu4 : unpack32 .lit (pySlice chainTd (2 + 14 + 12 * 2)
        (2 + 14 + 12 * 2 + 4)) = .ok 8 := rfl
    have hu5 : unpack16 .lit (pySlice chainTd 8 (8 + 2)) = .ok 0 := rfl
    exact thm_C3.2.2.2.1 .lit chainTd 8 ⟨none⟩ 0 ⟨.tiff, .lit, [], []⟩ ⟨none⟩ 14 2
        ⟨.thumbnail, .lit, [(0x201, 4, .vnums [0]), (0x202, 4, .vnums [0])], []⟩
        ⟨none⟩ 8 0 (by decide) hu1 ht1 hu2 (by decide)
        hu3 ht2 hu4 (by decide) hu5
  · have h := thm_C3.2.2.2.2
      ([0, 69, 120, 105, 102, 0] ++ iiWord ++ [42, 0] ++ [0, 0, 0, 0])
      ⟨.lit, iiWord, [], none⟩ C3_counterexample.1
    simp only [C3_counterexample.1, Except.map]
    simp at h
    simp [h]

/-! ### Lemmas on packing lengths, for the offset invariant (C5) -/

lemma natLeBytes_length (k n : Nat) : (natLeBytes k n).length = k := by
  induction k generalizing n with
  | zero => rfl
  | succ m ih => simp [natLeBytes, ih]

lemma pack16_length (e : Endian) (v : Int) (bs : List Nat)
    (h : pack16 e v = .ok bs) : bs.length = 2 := by
  unfold pack16 at h
  split at h
  · cases e <;> simp only [Except.ok.injEq] at h <;> rw [← h] <;>
      simp [natLeBytes_length]
  · exact absurd h (by simp)

lemma pack32u_length (e : Endian) (v : Int) (bs : List Nat)
    (h : pack32u e v = .ok bs) : bs.length = 4 := by
  unfold pack32u at h
  split at h
  · cases e <;> simp only [Except.ok.injEq] at h <;> rw [← h] <;>
      simp [natLeBytes_length]
  · exact absurd h (by simp)

lemma pack32s_length (e : Endian) (v : Int) (bs : List Nat)
    (h : pack32s e v = .ok bs) : bs.length = 4 := by
  unfold pack32s at h
  split at h
  · cases e <;> simp only [Except.ok.injEq] at h <;> rw [← h] <;>
      simp [natLeBytes_length]
  · exact absurd h (by simp)

lemma packSeq_length (e : Endian) (p : Endian → Int → Except Err (List Nat))
    (w : Nat) (hp : ∀ v out, p e v = .ok out → out.length = w) :
    ∀ (ns : List Int) (bs : List Nat),
      packSeq e p ns = .ok bs → bs.length = w * ns.length := by
  intro ns
  induction ns with
  | nil =>
    intro bs h
    simp only [packSeq, Except.ok.injEq] at h
    simp [← h]
  | cons v rest ih =>
    intro bs h
    simp only [packSeq, bind, Except.bind] at h
    cases hv : p e v with
    | error er => rw [hv] at h; exact absurd h (by simp)
    | ok out =>
      rw [hv] at h
      simp only at h
      cases hr : packSeq e p rest with
      | error er => rw [hr] at h; exact absurd h (by simp)
      | ok outs =>
        rw [hr] at h
        simp only [Except.ok.injEq] at h
        rw [← h]
        simp only [List.length_append, hp v out hv, ih outs hr, List.length_cons]
        ring

lemma packSeq_no_assert (e : Endian) (p : Endian → Int → Except Err (List Nat))
    (hp : ∀ v, p e v ≠ .error .assertFail) :
    ∀ ns : List Int, packSeq e p ns ≠ .error .assertFail := by
  intro ns
  induction ns with
  | nil => simp [packSeq]
  | cons v rest ih =>
    simp only [packSeq, bind, Except.bind]
    cases hv : p e v with
    | error er =>
      intro hcontra
      simp only [Except.error.injEq] at hcontra
      exact hp v (by rw [hv, hcontra])
    | ok out =>
      simp only
      cases hr : packSeq e p rest with
      | error er =>
        intro hcontra
        simp only [Except.error.injEq] at hcontra
        exact ih (by rw [hr, hcontra])
      | ok outs => simp

lemma rpack_length (e : Endian) (sgn : Bool) (v : Int) (bs : List Nat)
    (h : rpack e sgn v = .ok bs) : bs.length = 4 := by
  unfold rpack at h
  by_cases hsg : sgn
  · exact pack32s_length e v bs (by rwa [if_pos hsg] at h)
  · exact pack32u_length e v bs (by rwa [if_neg hsg] at h)

lemma rpack_no_assert (e : Endian) (sgn : Bool) (v : Int) :
    rpack e sgn v ≠ .error .assertFail := by
  unfold rpack
  by_cases hsg : sgn
  · rw [if_pos hsg]
    unfold pack32s
    split <;> simp
  · rw [if_neg hsg]
    unfold pack32u
    split <;> simp

lemma packRats_length (e : Endian) (sgn : Bool) :
    ∀ (rs : List (Int × Int)) (bs : List Nat),
      packRats e sgn rs = .ok bs → bs.length = 8 * rs.length := by
  intro rs
  induction rs with
  | nil =>
    intro bs h
    simp only [packRats, Except.ok.injEq] at h
    simp [← h]
  | cons r rest ih =>
    obtain ⟨rn, rd⟩ := r
    intro bs h
    simp only [packRats, bind, Except.bind] at h
    cases hn : rpack e sgn rn with
    | error er => rw [hn] at h; exact absurd h (by simp)
    | ok nb =>
      rw [hn] at h
      simp only at h
      cases hd : rpack e sgn rd with
      | error er => rw [hd] at h; exact absurd h (by simp)
      | ok db =>
        rw [hd] at h
        simp only at h
        cases hr : packRats e sgn rest with
        | error er => rw [hr] at h; exact absurd h (by simp)
        | ok outs =>
          rw [hr] at h
          simp only [Except.ok.injEq] at h
          rw [← h]
          simp only [List.length_append, rpack_length e sgn rn nb hn,
            rpack_length e sgn rd db hd, ih outs hr, List.length_cons]
          ring

lemma packRats_no_assert (e : Endian) (sgn : Bool) :
    ∀ rs : List (Int × Int), packRats e sgn rs ≠ .error .assertFail := by
  intro rs
  induction rs with
  | nil => simp [packRats]
  | cons r rest ih =>
    obtain ⟨rn, rd⟩ := r
    simp only [packRats, bind, Except.bind]
    cases hn : rpack e sgn rn with
    | error er =>
      intro hcontra
      simp only [Except.error.injEq] at hcontra
      exact rpack_no_assert e sgn rn (by rw [hn, hcontra])
    | ok nb =>
      simp only
      cases hd : rpack e sgn rd with
      | error er =>
        intro hcontra
        simp only [Except.error.injEq] at hcontra
        exact rpack_no_assert e sgn rd (by rw [hd, hcontra])
      | ok db =>
        simp only
        cases hr : packRats e sgn rest with
        | error er =>
          intro hcontra
          simp only [Except.error.injEq] at hcontra
          exact ih (by rw [hr, hcontra])
        | ok outs => simp

lemma pack16_no_assert (e : Endian) (v : Int) : pack16 e v ≠ .error .assertFail := by
  unfold pack16
  split <;> simp

lemma pack32u_no_assert (e : Endian) (v : Int) : pack32u e v ≠ .error .assertFail := by
  unfold pack32u
  split <;> simp

lemma pack32s_no_assert (e : Endian) (v : Int) : pack32s e v ≠ .error .assertFail := by
  unfold pack32s
  split <;> simp

/-- The serialised value of a non-nested entry is exactly
`type_size * components` bytes long. -/
lemma encodeVal_length (e : Endian) (ty : Nat) (v : IfdVal) (av : List Nat)
    (sz comps : Nat) (hts : typeSize ty = some sz) (hlen : pyLen v = .ok comps)
    (h : encodeVal e ty v = .ok av) : av.length = sz * comps := by
  unfold encodeVal at h
  split at h
  · rename_i h17
    have hsz : sz = 1 := by
      rcases h17 with rfl | rfl <;> (simp [typeSize] at hts; omega)
    cases v with
    | vbytes bs =>
      simp only [Except.ok.injEq] at h
      simp only [pyLen, Except.ok.injEq] at hlen
      rw [← h, ← hlen, hsz, one_mul]
    | vstr s =>
      simp only [Except.ok.injEq] at h
      simp only [pyLen, Except.ok.injEq] at hlen
      rw [← h, ← hlen, hsz, one_mul]
    | vnums ns => exact absurd h (by simp)
    | vrats rs => exact absurd h (by simp)
    | vifd k kE es => exact absurd h (by simp)
    | vnone => exact absurd h (by simp)
  split at h
  · rename_i h2
    subst h2
    have hsz : sz = 1 := by simp [typeSize] at hts; omega
    cases v with
    | vstr s =>
      simp only [Except.ok.injEq] at h
      simp only [pyLen, Except.ok.injEq] at hlen
      rw [← h, ← hlen, hsz, one_mul]
    | vbytes bs => exact absurd h (by simp)
    | vnums ns => exact absurd h (by simp)
    | vrats rs => exact absurd h (by simp)
    | vifd k kE es => exact absurd h (by simp)
    | vnone => exact absurd h (by simp)
  split at h
  · rename_i h3
    subst h3
    have hsz : sz = 2 := by simp [typeSize] at hts; omega
    cases v with
    | vnums ns =>
      simp only [pyLen, Except.ok.injEq] at hlen
      rw [packSeq_length e pack16 2 (fun w out hw => pack16_length e w out hw) ns av h,
        ← hlen, hsz]
    | vstr s => exact absurd h (by simp)
    | vbytes bs => exact absurd h (by simp)
    | vrats rs => exact absurd h (by simp)
    | vifd k kE es => exact absurd h (by simp)
    | vnone => exact absurd h (by simp)
  split at h
  · rename_i h4
    subst h4
    have hsz : sz = 4 := by simp [typeSize] at hts; omega
    cases v with
    | vnums ns =>
      simp only [pyLen, Except.ok.injEq] at hlen
      rw [packSeq_length e pack32u 4 (fun w out hw => pack32u_length e w out hw) ns av h,
        ← hlen, hsz]
    | vstr s => exact absurd h (by simp)
    | vbytes bs => exact absurd h (by simp)
    | vrats rs => exact absurd h (by simp)
    | vifd k kE es => exact absurd h (by simp)
    | vnone => exact absurd h (by simp)
  split at h
  · rename_i h9
    subst h9
    have hsz : sz = 4 := by simp [typeSize] at hts; omega
    cases v with
    | vnums ns =>
      simp only [pyLen, Except.ok.injEq] at hlen
      rw [packSeq_length e pack32s 4 (fun w out hw => pack32s_length e w out hw) ns av h,
        ← hlen, hsz]
    | vstr s => exact absurd h (by simp)
    | vbytes bs => exact absurd h (by simp)
    | vrats rs => exact absurd h (by simp)
    | vifd k kE es => exact absurd h (by simp)
    | vnone => exact absurd h (by simp)
  split at h
  · rename_i h5
    subst h5
    have hsz : sz = 8 := by simp [typeSize] at hts; omega
    cases v with
    | vrats rs =>
      simp only [pyLen, Except.ok.injEq] at hlen
      rw [packRats_length e false rs av h, ← hlen, hsz]
    | vstr s => exact absurd h (by simp)
    | vbytes bs => exact absurd h (by simp)
    | vnums ns => exact absurd h (by simp)
    | vifd k kE es => exact absurd h (by simp)
    | vnone => exact absurd h (by simp)
  split at h
  · rename_i h10
    subst h10
    have hsz : sz = 8 := by simp [typeSize] at hts; omega
    cases v with
    | vrats rs =>
      simp only [pyLen, Except.ok.injEq] at hlen
      rw [packRats_length e true rs av h, ← hlen, hsz]
    | vstr s => exact absurd h (by simp)
    | vbytes bs => exact absurd h (by simp)
    | vnums ns => exact absurd h (by simp)
    | vifd k kE es => exact absurd h (by simp)
    | vnone => exact absurd h (by simp)
  · exact absurd h (by simp)

lemma encodeVal_no_assert (e : Endian) (ty : Nat) (v : IfdVal) :
    encodeVal e ty v ≠ .error .assertFail := by
  unfold encodeVal
  split
  · cases v <;>
      simp [packSeq_no_assert, packRats_no_assert]
  split
  · cases v <;> simp
  split
  · cases v <;>
      first
      | exact packSeq_no_assert e pack16 (fun w => pack16_no_assert e w) _
      | simp
  split
  · cases v <;>
      first
      | exact packSeq_no_assert e pack32u (fun w => pack32u_no_assert e w) _
      | simp
  split
  · cases v <;>
      first
      | exact packSeq_no_assert e pack32s (fun w => pack32s_no_assert e w) _
      | simp
  split
  · cases v <;>
      first
      | exact packRats_no_assert e false _
      | simp
  split
  · cases v <;>
      first
      | exact packRats_no_assert e true _
      | simp
  · simp

lemma step_flat_ok (e : Endian) (dOff : Nat) (tag ty : Nat) (v : IfdVal)
    (oe : Nat × Nat × Nat × List Nat) (chunk : List Nat) (dOff2 : Nat)
    (h : encodeFlatStep e dOff tag ty v = .ok (oe, chunk, dOff2)) :
    dOff2 = dOff + chunk.length ∧ oe.2.2.2.length = 4 := by
  unfold encodeFlatStep at h
  simp only [bind, Except.bind, pure, Except.pure] at h
  cases hcomps : pyLen v with
  | error er => rw [hcomps] at h; exact absurd h (by simp)
  | ok comps =>
  rw [hcomps] at h
  simp only at h
  cases hts : typeSize ty with
  | none => rw [hts] at h; exact absurd h (by simp [throw, throwThe, MonadExceptOf.throw])
  | some sz =>
  rw [hts] at h
  simp only at h
  cases hav : encodeVal e ty v with
  | error er => rw [hav] at h; exact absurd h (by simp)
  | ok av =>
  rw [hav] at h
  simp only at h
  have havlen : av.length = sz * comps := encodeVal_length e ty v av sz comps hts hcomps hav
  by_cases hbig : sz * comps > 4
  · rw [if_pos hbig] at h
    cases hpk : pack32u e (dOff : Int) with
    | error er => rw [hpk] at h; exact absurd h (by simp)
    | ok ptr =>
      rw [hpk] at h
      simp only [Except.ok.injEq, Prod.mk.injEq] at h
      obtain ⟨h1, h2, h3⟩ := h
      refine ⟨?_, ?_⟩
      · rw [← h3, ← h2, havlen]
      · rw [← h1]
        exact pack32u_length e (dOff : Int) ptr hpk
  · rw [if_neg hbig] at h
    simp only [Except.ok.injEq, Prod.mk.injEq] at h
    obtain ⟨h1, h2, h3⟩ := h
    refine ⟨by rw [← h3, ← h2]; simp, ?_⟩
    rw [← h1]
    simp only [List.length_append, List.length_replicate]
    omega

lemma step_ok (gd : GdFn) (e : Endian) (dOff : Nat) (ent : Entry)
    (oe : Nat × Nat × Nat × List Nat) (chunk : List Nat) (dOff2 : Nat)
    (h : encodeEntryStep gd e dOff ent = .ok (oe, chunk, dOff2)) :
    dOff2 = dOff + chunk.length ∧ oe.2.2.2.length = 4 := by
  obtain ⟨tag, ty, v⟩ := ent
  cases v with
  | vifd kk kE kes =>
    unfold encodeEntryStep at h
    simp only [bind, Except.bind, pure, Except.pure] at h
    by_cases hk : kk = .thumbnail
    · rw [if_pos hk] at h
      exact absurd h (by simp [throw, throwThe, MonadExceptOf.throw])
    rw [if_neg hk] at h
    try simp only at h
    cases hg : gd kk kE kes [] e dOff true with
    | error er => rw [hg] at h; exact absurd h (by simp)
    | ok p =>
      rw [hg] at h
      simp only at h
      obtain ⟨sub, nxt⟩ := p
      by_cases ha : nxt ≠ dOff + sub.length
      · rw [if_pos ha] at h
        exact absurd h (by simp [throw, throwThe, MonadExceptOf.throw])
      rw [if_neg ha] at h
      simp only at h
      cases hpk : pack32u e (dOff : Int) with
      | error er => rw [hpk] at h; exact absurd h (by simp)
      | ok av =>
        rw [hpk] at h
        simp only [Except.ok.injEq, Prod.mk.injEq] at h
        obtain ⟨h1, h2, h3⟩ := h
        refine ⟨by rw [← h3, ← h2], ?_⟩
        rw [← h1]
        exact pack32u_length e (dOff : Int) av hpk
  | vstr s => exact step_flat_ok e dOff tag ty (.vstr s) oe chunk dOff2 h
  | vbytes bs => exact step_flat_ok e dOff tag ty (.vbytes bs) oe chunk dOff2 h
  | vnums ns => exact step_flat_ok e dOff tag ty (.vnums ns) oe chunk dOff2 h
  | vrats rs => exact step_flat_ok e dOff tag ty (.vrats rs) oe chunk dOff2 h
  | vnone => exact step_flat_ok e dOff tag ty .vnone oe chunk dOff2 h

lemma step_flat_no_assert (e : Endian) (dOff : Nat) (tag ty : Nat) (v : IfdVal) :
    encodeFlatStep e dOff tag ty v ≠ .error .assertFail := by
  unfold encodeFlatStep
  simp only [bind, Except.bind, pure, Except.pure]
  cases hcomps : pyLen v with
  | error er =>
    intro hcontra
    simp only [Except.error.injEq] at hcontra
    subst hcontra
    cases v <;> simp [pyLen] at hcomps
  | ok comps =>
  simp only
  cases hts : typeSize ty with
  | none => simp [throw, throwThe, MonadExceptOf.throw]
  | some sz =>
  simp only
  cases hav : encodeVal e ty v with
  | error er =>
    intro hcontra
    simp only [Except.error.injEq] at hcontra
    exact encodeVal_no_assert e ty v (by rw [hav, hcontra])
  | ok av =>
  simp only
  by_cases hbig : sz * comps > 4
  · rw [if_pos hbig]
    cases hpk : pack32u e (dOff : Int) with
    | error er =>
      intro hcontra
      simp only [Except.error.injEq] at hcontra
      exact pack32u_no_assert e (dOff : Int) (by rw [hpk, hcontra])
    | ok ptr => simp
  · rw [if_neg hbig]
    simp

lemma step_no_assert (gd : GdFn) (hgd : GdGood gd) (e : Endian) (dOff : Nat)
    (ent : Entry) : encodeEntryStep gd e dOff ent ≠ .error .assertFail := by
  obtain ⟨tag, ty, v⟩ := ent
  cases v with
  | vifd kk kE kes =>
    unfold encodeEntryStep
    simp only [bind, Except.bind, pure, Except.pure]
    by_cases hk : kk = .thumbnail
    · rw [if_pos hk]
      simp [throw, throwThe, MonadExceptOf.throw]
    rw [if_neg hk]
    try simp only
    cases hg : gd kk kE kes [] e dOff true with
    | error er =>
      intro hcontra
      simp only [Except.error.injEq] at hcontra
      exact (hgd kk kE kes [] e dOff true).2 (by rw [hg, hcontra])
    | ok p =>
      simp only
      obtain ⟨sub, nxt⟩ := p
      have hn : nxt = dOff + sub.length := (hgd kk kE kes [] e dOff true).1 sub nxt hg
      rw [if_neg (not_not_intro hn)]
      simp only
      cases hpk : pack32u e (dOff : Int) with
      | error er =>
        intro hcontra
        simp only [Except.error.injEq] at hcontra
        exact pack32u_no_assert e (dOff : Int) (by rw [hpk, hcontra])
      | ok av => simp
  | vstr s => exact step_flat_no_assert e dOff tag ty (.vstr s)
  | vbytes bs => exact step_flat_no_assert e dOff tag ty (.vbytes bs)
  | vnums ns => exact step_flat_no_assert e dOff tag ty (.vnums ns)
  | vrats rs => exact step_flat_no_assert e dOff tag ty (.vrats rs)
  | vnone => exact step_flat_no_assert e dOff tag ty .vnone

lemma entries_ok (gd : GdFn) (e : Endian) :
    ∀ (es : List Entry) (dOff : Nat) (oes : List (Nat × Nat × Nat × List Nat))
      (outD : List Nat) (dOffF : Nat),
      encodeEntries gd e es dOff = .ok (oes, outD, dOffF) →
      dOffF = dOff + outD.length ∧ oes.length = es.length ∧
        ∀ oe ∈ oes, oe.2.2.2.length = 4 := by
  intro es
  induction es with
  | nil =>
    intro dOff oes outD dOffF h
    simp only [encodeEntries, Except.ok.injEq, Prod.mk.injEq] at h
    obtain ⟨h1, h2, h3⟩ := h
    refine ⟨by rw [← h3, ← h2]; simp, by rw [← h1]; rfl, ?_⟩
    intro oe hoe
    rw [← h1] at hoe
    simp at hoe
  | cons ent rest ih =>
    intro dOff oes outD dOffF h
    simp only [encodeEntries, bind, Except.bind] at h
    cases hs : encodeEntryStep gd e dOff ent with
    | error er => rw [hs] at h; exact absurd h (by simp)
    | ok p =>
    rw [hs] at h
    simp only at h
    obtain ⟨oe, chunk, dOff2⟩ := p
    cases hr : encodeEntries gd e rest dOff2 with
    | error er => rw [hr] at h; exact absurd h (by simp)
    | ok q =>
    rw [hr] at h
    simp only [Except.ok.injEq, Prod.mk.injEq] at h
    obtain ⟨oes2, chunks, dOff3⟩ := q
    obtain ⟨h1, h2, h3⟩ := h
    obtain ⟨hstep1, hstep2⟩ := step_ok gd e dOff ent oe chunk dOff2 hs
    obtain ⟨hrec1, hrec2, hrec3⟩ := ih dOff2 oes2 chunks dOff3 hr
    refine ⟨?_, ?_, ?_⟩
    · rw [← h3, ← h2]
      simp only [List.length_append]
      omega
    · rw [← h1]
      simp [hrec2]
    · intro x hx
      rw [← h1] at hx
      rcases List.mem_cons.mp hx with hx1 | hx2
      · rw [hx1]; exact hstep2
      · exact hrec3 x hx2

lemma entries_no_assert (gd : GdFn) (hgd : GdGood gd) (e : Endian) :
    ∀ (es : List Entry) (dOff : Nat),
      encodeEntries gd e es dOff ≠ .error .assertFail := by
  intro es
  induction es with
  | nil => intro dOff; simp [encodeEntries]
  | cons ent rest ih =>
    intro dOff
    simp only [encodeEntries, bind, Except.bind]
    cases hs : encodeEntryStep gd e dOff ent with
    | error er =>
      intro hcontra
      simp only [Except.error.injEq] at hcontra
      exact step_no_assert gd hgd e dOff ent (by rw [hs, hcontra])
    | ok p =>
      simp only
      obtain ⟨oe, chunk, dOff2⟩ := p
      cases hr : encodeEntries gd e rest dOff2 with
      | error er =>
        intro hcontra
        simp only [Except.error.injEq] at hcontra
        exact ih dOff2 (by rw [hr, hcontra])
      | ok q => simp

lemma entriesBytes_length (selfE : Endian) :
    ∀ (oes : List (Nat × Nat × Nat × List Nat)) (tbl : List Nat),
      (∀ oe ∈ oes, oe.2.2.2.length = 4) →
      entriesBytes selfE oes = .ok tbl → tbl.length = 12 * oes.length := by
  intro oes
  induction oes with
  | nil =>
    intro tbl _ h
    simp only [entriesBytes, Except.ok.injEq] at h
    simp [← h]
  | cons oe rest ih =>
    obtain ⟨tag, ty, cnt, val4⟩ := oe
    intro tbl h4 h
    simp only [entriesBytes, bind, Except.bind] at h
    cases ht : pack16 selfE (tag : Int) with
    | error er => rw [ht] at h; exact absurd h (by simp)
    | ok tb =>
    rw [ht] at h
    simp only at h
    cases hy : pack16 selfE (ty : Int) with
    | error er => rw [hy] at h; exact absurd h (by simp)
    | ok yb =>
    rw [hy] at h
    simp only at h
    cases hc : pack32u selfE (cnt : Int) with
    | error er => rw [hc] at h; exact absurd h (by simp)
    | ok cb =>
    rw [hc] at h
    simp only at h
    cases hr : entriesBytes selfE rest with
    | error er => rw [hr] at h; exact absurd h (by simp)
    | ok r =>
    rw [hr] at h
    simp only [Except.ok.injEq] at h
    have hv4 : val4.length = 4 := h4 (tag, ty, cnt, val4) (by simp)
    have hrlen : r.length = 12 * rest.length :=
      ih r (fun x hx => h4 x (by simp [hx])) hr
    rw [← h]
    simp only [List.length_append, pack16_length selfE _ tb ht,
      pack16_length selfE _ yb hy, pack32u_length selfE _ cb hc, hv4, hrlen,
      List.length_cons]
    ring

lemma entriesBytes_no_assert (selfE : Endian) :
    ∀ oes : List (Nat × Nat × Nat × List Nat),
      entriesBytes selfE oes ≠ .error .assertFail := by
  intro oes
  induction oes with
  | nil => simp [entriesBytes]
  | cons oe rest ih =>
    obtain ⟨tag, ty, cnt, val4⟩ := oe
    simp only [entriesBytes, bind, Except.bind]
    cases ht : pack16 selfE (tag : Int) with
    | error er =>
      intro hcontra
      simp only [Except.error.injEq] at hcontra
      exact pack16_no_assert selfE (tag : Int) (by rw [ht, hcontra])
    | ok tb =>
    simp only
    cases hy : pack16 selfE (ty : Int) with
    | error er =>
      intro hcontra
      simp only [Except.error.injEq] at hcontra
      exact pack16_no_assert selfE (ty : Int) (by rw [hy, hcontra])
    | ok yb =>
    simp only
    cases hc : pack32u selfE (cnt : Int) with
    | error er =>
      intro hcontra
      simp only [Except.error.injEq] at hcontra
      exact pack32u_no_assert selfE (cnt : Int) (by rw [hc, hcontra])
    | ok cb =>
    simp only
    cases hr : entriesBytes selfE rest with
    | error er =>
      intro hcontra
      simp only [Except.error.injEq] at hcontra
      exact ih (by rw [hr, hcontra])
    | ok r => simp

lemma extraIfdData_sndLength (k : IfdKind) (es : List Entry) (jd : List Nat)
    (dOff : Nat) : (extraIfdData k es jd dOff).2.length = es.length := by
  cases k <;> simp [extraIfdData]

lemma base_good (gd : GdFn) (hgd : GdGood gd) (k : IfdKind) (selfE : Endian)
    (es : List Entry) (jd : List Nat) (e : Endian) (offset : Nat) (last : Bool) :
    (∀ d n, getdataBase gd k selfE es jd e offset last = .ok (d, n) →
       n = offset + d.length) ∧
    getdataBase gd k selfE es jd e offset last ≠ .error .assertFail := by
  unfold getdataBase
  simp only [bind, Except.bind, pure, Except.pure]
  cases hx : extraIfdData k es jd (offset + 2 + es.length * 12 + 4) with
  | mk extra es2 =>
  simp only
  cases hee : encodeEntries gd e es2 (offset + 2 + es.length * 12 + 4 + extra.length) with
  | error er =>
    constructor
    · intro d n hcontra; exact absurd hcontra (by simp)
    · intro hcontra
      simp only [Except.error.injEq] at hcontra
      exact entries_no_assert gd hgd e es2 _ (by rw [hee, hcontra])
  | ok p =>
  simp only
  obtain ⟨oes, outD, dOffF⟩ := p
  cases hcnt : pack16 e (es2.length : Int) with
  | error er =>
    constructor
    · intro d n hcontra; exact absurd hcontra (by simp)
    · intro hcontra
      simp only [Except.error.injEq] at hcontra
      exact pack16_no_assert e (es2.length : Int) (by rw [hcnt, hcontra])
  | ok cnt =>
  simp only
  cases htbl : entriesBytes selfE oes with
  | error er =>
    constructor
    · intro d n hcontra; exact absurd hcontra (by simp)
    · intro hcontra
      simp only [Except.error.injEq] at hcontra
      exact entriesBytes_no_assert selfE oes (by rw [htbl, hcontra])
  | ok tbl =>
  simp only
  cases hnxt : pack32u selfE (if last = true then 0 else (dOffF : Int)) with
  | error er =>
    constructor
    · intro d n hcontra; exact absurd hcontra (by simp)
    · intro hcontra
      simp only [Except.error.injEq] at hcontra
      exact pack32u_no_assert selfE _ (by rw [hnxt, hcontra])
  | ok nxt =>
  simp only
  obtain ⟨hinv1, hinv2, hinv3⟩ := entries_ok gd e es2 _ oes outD dOffF hee
  have hlen2 : es2.length = es.length := by
    have h := extraIfdData_sndLength k es jd (offset + 2 + es.length * 12 + 4)
    rw [hx] at h
    exact h
  have hnxtlen : nxt.length = 4 := pack32u_length selfE _ nxt hnxt
  have htbllen : tbl.length = 12 * oes.length := entriesBytes_length selfE oes tbl hinv3 htbl
  have hcheck : dOffF = offset + (cnt ++ tbl ++ nxt ++ extra ++ outD).length := by
    simp only [List.length_append, pack16_length e _ cnt hcnt, htbllen, hnxtlen,
      hinv2, hlen2]
    omega
  rw [if_pos hcheck]
  constructor
  · intro d n h
    simp only [Except.ok.injEq, Prod.mk.injEq] at h
    obtain ⟨h1, h2⟩ := h
    rw [← h1, ← h2]
    exact hcheck
  · simp

lemma getdata_good : ∀ fuel : Nat, GdGood (getdata fuel) := by
  intro fuel
  induction fuel with
  | zero =>
    intro k kE es jd e off last
    constructor
    · intro d n h; exact absurd h (by simp [getdata])
    · simp [getdata]
  | succ m ih =>
    intro k kE es jd e off last
    by_cases hk : k = .fuji
    · subst hk
      have hred : getdata (m + 1) .fuji kE es jd e off last =
          (match getdataBase (getdata m) .fuji kE es jd e 12 last with
           | .ok (d, n) => .ok ((fujiWord ++ [12, 0, 0, 0]) ++ d, n + off)
           | .error er => .error er) := rfl
      constructor
      · intro d n h
        rw [hred] at h
        cases hb : getdataBase (getdata m) .fuji kE es jd e 12 last with
        | error er => rw [hb] at h; exact absurd h (by simp)
        | ok p =>
          rw [hb] at h
          try simp only at h
          obtain ⟨d0, n0⟩ := p
          have hbo := (base_good (getdata m) ih .fuji kE es jd e 12 last).1 d0 n0 hb
          simp only [Except.ok.injEq, Prod.mk.injEq] at h
          obtain ⟨h1, h2⟩ := h
          rw [← h1, ← h2]
          simp only [List.length_append, fujiWord, List.length_cons, List.length_nil]
          omega
      · rw [hred]
        cases hb : getdataBase (getdata m) .fuji kE es jd e 12 last with
        | error er =>
          intro hcontra
          try simp only at hcontra
          simp only [Except.error.injEq] at hcontra
          exact (base_good (getdata m) ih .fuji kE es jd e 12 last).2
            (by rw [hb, hcontra])
        | ok p => simp
    · have hred : getdata (m + 1) k kE es jd e off last =
          getdataBase (getdata m) k kE es jd e off last := by
        simp only [getdata, if_neg hk]
      constructor
      · intro d n h
        rw [hred] at h
        exact (base_good (getdata m) ih k kE es jd e off last).1 d n h
      · rw [hred]
        exact (base_good (getdata m) ih k kE es jd e off last).2

/-- C5 (confirmed): whenever `getdata` succeeds, the returned next-free
offset equals the start offset plus the length of the produced bytes —
and the internal `assert (next_offset == offset + len(data))` (together
with the nested-directory `assert(next_offset == data_offset)`) never
fires for any directory state, on any endianness, offset or fuel. -/
theorem thm_C5 :
    ∀ (fuel : Nat) (k : IfdKind) (selfE : Endian) (es : List Entry)
      (jd : List Nat) (e : Endian) (off : Nat) (last : Bool),
      (∀ d n, getdata fuel k selfE es jd e off last = .ok (d, n) →
         n = off + d.length) ∧
      getdata fuel k selfE es jd e off last ≠ .error .assertFail :=
  fun fuel => getdata_good fuel

/-- Witness for C5: a one-entry TIFF directory encoded at offset 8
returns next offset 26 = 8 + 18. -/
theorem thm_C5_witness :
    getdata 3 .tiff .lit [(256, 3, .vnums [7])] [] .lit 8 true
      = .ok ([1, 0, 0, 1, 3, 0, 1, 0, 0, 0, 7, 0, 0, 0, 0, 0, 0, 0], 26) ∧
    26 = 8 + ([1, 0, 0, 1, 3, 0, 1, 0, 0, 0, 7, 0, 0, 0, 0, 0, 0, 0] : List Nat).length :=
  ⟨rfl, (thm_C5 3 .tiff .lit [(256, 3, .vnums [7])] [] .lit 8 true).1
    [1, 0, 0, 1, 3, 0, 1, 0, 0, 0, 7, 0, 0, 0, 0, 0, 0, 0] 26 rfl⟩

lemma markerKnown_facts (m : Nat) (h : markerKnown m = true) :
    m < 256 ∧ m ≠ 217 ∧ m ≠ 255 ∧ m ≠ 216 := by
  unfold markerKnown at h
  simp only [Bool.or_eq_true, beq_iff_eq] at h
  omega

lemma readN_spec (b : List Nat) (pos n : Nat) (l : List Nat)
    (h : b.drop pos = l) (hp : pos ≤ b.length) (hn : n ≤ l.length) :
    readN b pos n = (l.take n, pos + n) ∧ b.drop (pos + n) = l.drop n ∧
      pos + n ≤ b.length := by
  have hlen : l.length = b.length - pos := by rw [← h, List.length_drop]
  have hle : pos + n ≤ b.length := by omega
  refine ⟨?_, ?_, hle⟩
  · unfold readN
    rw [h, Nat.min_eq_left hle]
  · rw [← List.drop_drop, h]

lemma pack16be_eq (n : Nat) (h : n < 65536) : pack16be n = .ok (pack16beU n) := by
  unfold pack16be pack16beU
  rw [if_pos (by omega)]

lemma segBytes_length (m : Nat) (p : List Nat) :
    (segBytes m p).length = 4 + p.length := by
  simp [segBytes, pack16beU]
  omega

lemma midBytes_length_ge (mid : List (Nat × List Nat)) :
    4 * mid.length ≤ (midBytes mid).length := by
  induction mid with
  | nil => simp [midBytes]
  | cons mp rest ih =>
    obtain ⟨m, p⟩ := mp
    simp only [midBytes, List.length_append, segBytes_length, List.length_cons]
    omega

/-- The loop stops (returning the accumulated segments) when the cursor
sits on the end-of-image marker. -/
lemma parseLoop_eoi (b : List Nat) (pos fuel : Nat) (acc : List Seg)
    (hp : pos ≤ b.length) (hdrop : b.drop pos = [255, 217]) (hf : 1 ≤ fuel) :
    parseLoop b fuel pos acc = .ok acc.reverse := by
  obtain ⟨f, rfl⟩ : ∃ f, fuel = f + 1 := ⟨fuel - 1, by omega⟩
  obtain ⟨hread, _, _⟩ := readN_spec b pos 2 [255, 217] hdrop hp (by simp)
  unfold parseLoop
  rw [hread]
  simp

/-- Parsing one well-formed scan segment (followed by image data and the
end-of-image marker) appends the expected scan segment object.  `n`
abbreviates `p.length + 2`. -/
lemma parseLoop_sos (b : List Nat) (pos f : Nat) (acc : List Seg)
    (p img : List Nat) (hgt : p.length + 2 < 65536) (hp : pos ≤ b.length)
    (hdrop : b.drop pos = (segBytes 218 p ++ img) ++ [255, 217]) (hf : 1 ≤ f) :
    parseLoop b (f + 1) pos acc
      = .ok (List.reverse (⟨218, p, .sos img⟩ :: acc)) := by
  have hL : b.drop pos
      = 255 :: 218 :: ((pack16beU (p.length + 2) ++ p) ++ (img ++ [255, 217])) := by
    rw [hdrop]
    simp [segBytes, List.append_assoc]
  obtain ⟨hr1, hd1, hp1⟩ := readN_spec b pos 2 _ hL hp (by simp)
  have hL2 : b.drop (pos + 2)
      = ((p.length + 2) / 256) :: ((p.length + 2) % 256) :: (p ++ (img ++ [255, 217])) := by
    rw [hd1]
    simp [pack16beU]
  obtain ⟨hr2, hd2, hp2⟩ := readN_spec b (pos + 2) 2 _ hL2 hp1 (by simp)
  have hL3 : b.drop (pos + 2 + 2) = p ++ (img ++ [255, 217]) := by
    rw [hd2]
    simp
  obtain ⟨hr3, hd3, hp3⟩ := readN_spec b (pos + 2 + 2) p.length _ hL3 hp2 (by simp)
  have hsize : 256 * ((p.length + 2) / 256) + (p.length + 2) % 256 = p.length + 2 := by
    omega
  have hblen : b.length = pos + 2 + 2 + p.length + (img.length + 2) := by
    have h := congrArg List.length hd3
    simp only [List.length_drop, List.length_append, List.length_cons,
      List.length_nil] at h
    omega
  have hr1' : readN b pos 2 = ([255, 218], pos + 2) := by rw [hr1]; rfl
  have hr2' : readN b (pos + 2) 2
      = ([(p.length + 2) / 256, (p.length + 2) % 256], pos + 2 + 2) := by
    rw [hr2]; rfl
  have hr3' : readN b (pos + 2 + 2) p.length = (p, pos + 2 + 2 + p.length) := by
    rw [hr3, List.take_left]
  have hd3' : b.drop (pos + 2 + 2 + p.length) = img ++ [255, 217] := by
    rw [hd3, List.drop_left]
  unfold parseLoop
  rw [hr1']
  simp only
  rw [if_neg (by simp : ¬ (255 : Nat) ≠ 255)]
  rw [if_neg (by omega : ¬ (218 : Nat) = 217)]
  rw [hr2']
  simp only
  rw [hsize]
  rw [if_neg (by omega : ¬ p.length + 2 < 2)]
  rw [show p.length + 2 - 2 = p.length from by omega, hr3']
  simp only [reduceIte]
  rw [hd3']
  have himg : (img ++ [255, 217]).take ((img ++ [255, 217]).length - 2) = img := by
    simp
  rw [himg]
  have hpos4 : b.length - 2 = pos + 2 + 2 + p.length + img.length := by omega
  have hd4 : b.drop (b.length - 2) = [255, 217] := by
    rw [hpos4, show pos + 2 + 2 + p.length + img.length
        = (pos + 2 + 2 + p.length) + img.length from rfl, ← List.drop_drop, hd3']
    simp
  rw [parseLoop_eoi b (b.length - 2) f (⟨218, p, .sos img⟩ :: acc)
    (by omega) hd4 hf]
  rw [if_neg (by decide : ¬ markerKnown 218 = false)]

/-- The segment loop on a well-formed stream produces exactly the
expected segment objects. -/
lemma parseLoop_good (mid : List (Nat × List Nat)) :
    ∀ (sos : Option (List Nat × List Nat)) (b : List Nat) (pos f : Nat)
      (acc : List Seg),
      goodMid mid → goodTail sos → pos ≤ b.length →
      b.drop pos = midBytes mid ++ tailBytes sos ++ [255, 217] →
      mid.length + 2 ≤ f →
      parseLoop b f pos acc = .ok (acc.reverse ++ expectedSegs mid sos) := by
  induction mid with
  | nil =>
    intro sos b pos f acc _ hgt hp hdrop hf
    cases sos with
    | none =>
      simp only [midBytes, tailBytes, List.nil_append] at hdrop
      rw [parseLoop_eoi b pos f acc hp hdrop (by omega)]
      simp [expectedSegs]
    | some ps =>
      obtain ⟨p, img⟩ := ps
      simp only [midBytes, tailBytes, List.nil_append] at hdrop
      obtain ⟨g, rfl⟩ : ∃ g, f = g + 1 := ⟨f - 1, by omega⟩
      rw [parseLoop_sos b pos g acc p img hgt hp (by rw [hdrop]) (by omega)]
      simp [expectedSegs]
  | cons mp rest ih =>
    intro sos b pos f acc hgm hgt hp hdrop hf
    obtain ⟨m, p⟩ := mp
    have hseg : goodMidSeg m p := hgm (m, p) (by simp)
    obtain ⟨hmk, hm218, hlen, hm225⟩ := hseg
    obtain ⟨hlt, hm217, hm255, hm216⟩ := markerKnown_facts m hmk
    have hL : b.drop pos
        = 255 :: m :: (pack16beU (p.length + 2) ++ p ++
            (midBytes rest ++ (tailBytes sos ++ [255, 217]))) := by
      rw [hdrop]
      simp [midBytes, segBytes, List.append_assoc]
    obtain ⟨hr1, hd1, hp1⟩ := readN_spec b pos 2 _ hL hp (by simp)
    have hL2 : b.drop (pos + 2)
        = ((p.length + 2) / 256) :: ((p.length + 2) % 256) ::
            (p ++ (midBytes rest ++ (tailBytes sos ++ [255, 217]))) := by
      rw [hd1]
      simp [pack16beU]
    obtain ⟨hr2, hd2, hp2⟩ := readN_spec b (pos + 2) 2 _ hL2 hp1 (by simp)
    have hL3 : b.drop (pos + 2 + 2)
        = p ++ (midBytes rest ++ (tailBytes sos ++ [255, 217])) := by
      rw [hd2]
      simp
    obtain ⟨hr3, hd3, hp3⟩ := readN_spec b (pos + 2 + 2) p.length _ hL3 hp2 (by simp)
    have hsize : 256 * ((p.length + 2) / 256) + (p.length + 2) % 256
        = p.length + 2 := by omega
    have hr1' : readN b pos 2 = ([255, m], pos + 2) := by rw [hr1]; rfl
    have hr2' : readN b (pos + 2) 2
        = ([(p.length + 2) / 256, (p.length + 2) % 256], pos + 2 + 2) := by
      rw [hr2]; rfl
    have hr3' : readN b (pos + 2 + 2) p.length = (p, pos + 2 + 2 + p.length) := by
      rw [hr3, List.take_left]
    have hd3' : b.drop (pos + 2 + 2 + p.length)
        = midBytes rest ++ tailBytes sos ++ [255, 217] := by
      rw [hd3, List.drop_left, ← List.append_assoc]
    have hbuild : buildSegKind m p = .ok .default := by
      by_cases hm : m = 225
      · subst hm
        exact buildSegKind_default p (hm225 rfl).1 (hm225 rfl).2
      · simp [buildSegKind, hm]
    obtain ⟨g, rfl⟩ : ∃ g, f = g + 1 := ⟨f - 1, by omega⟩
    unfold parseLoop
    rw [hr1']
    simp only
    rw [if_neg (by simp : ¬ (255 : Nat) ≠ 255)]
    rw [if_neg hm217]
    rw [hr2']
    simp only
    rw [hsize]
    rw [if_neg (by omega : ¬ p.length + 2 < 2)]
    rw [show p.length + 2 - 2 = p.length from by omega, hr3']
    simp only
    rw [if_neg (by simp [hmk] : ¬ markerKnown m = false)]
    rw [if_neg hm218]
    rw [hbuild]
    simp only
    rw [ih sos b (pos + 2 + 2 + p.length) g (⟨m, p, .default⟩ :: acc)
      (fun q hq => hgm q (by simp [hq])) hgt hp3 hd3' (by simp at hf; omega)]
    simp [expectedSegs]

/-- Writing an opaque default segment reproduces its wire bytes. -/
lemma segWrite_default (fuel m : Nat) (p : List Nat)
    (hm : m < 256) (hl : p.length + 2 < 65536) :
    segWrite fuel ⟨m, p, .default⟩ = .ok (segBytes m p) := by
  have h8 : pack8 m = .ok [m] := by unfold pack8; rw [if_pos (by omega)]
  have h16 : pack16be (p.length + 2) = .ok (pack16beU (p.length + 2)) :=
    pack16be_eq _ (by omega)
  unfold segWrite segGetData
  simp only [bind, Except.bind, pure, Except.pure, h8, h16]
  simp [segBytes]

/-- Writing a scan segment reproduces its wire bytes plus the image
data. -/
lemma segWrite_sos (fuel : Nat) (p img : List Nat) (hl : p.length + 2 < 65536) :
    segWrite fuel ⟨218, p, .sos img⟩ = .ok (segBytes 218 p ++ img) := by
  have h8 : pack8 218 = .ok [218] := by unfold pack8; rw [if_pos (by omega)]
  have h16 : pack16be (p.length + 2) = .ok (pack16beU (p.length + 2)) :=
    pack16be_eq _ (by omega)
  unfold segWrite segGetData
  simp only [bind, Except.bind, pure, Except.pure, h8, h16]
  simp [segBytes]

/-- Writing the expected segment objects of a well-formed stream
reproduces the stream's segment bytes. -/
lemma writeSegs_expected (fuel : Nat) (mid : List (Nat × List Nat))
    (sos : Option (List Nat × List Nat)) (hgm : goodMid mid) (hgt : goodTail sos) :
    writeSegs fuel (expectedSegs mid sos) = .ok (midBytes mid ++ tailBytes sos) := by
  induction mid with
  | nil =>
    cases sos with
    | none => simp [expectedSegs, writeSegs, midBytes, tailBytes]
    | some ps =>
      obtain ⟨p, img⟩ := ps
      simp only [expectedSegs, List.map_nil, List.nil_append]
      unfold writeSegs
      rw [segWrite_sos fuel p img hgt]
      simp [writeSegs, midBytes, tailBytes, bind, Except.bind]
  | cons mp rest ih =>
    obtain ⟨m, p⟩ := mp
    have hseg : goodMidSeg m p := hgm (m, p) (by simp)
    obtain ⟨hmk, _, hlen, _⟩ := hseg
    have hm := (markerKnown_facts m hmk).1
    have ihr := ih (fun q hq => hgm q (by simp [hq]))
    simp only [expectedSegs] at ihr ⊢
    simp only [List.map_cons, List.cons_append]
    unfold writeSegs
    rw [segWrite_default fuel m p hm hlen]
    simp only [bind, Except.bind]
    rw [ihr]
    simp [midBytes, List.append_assoc]

/-- C1 counterexample: a valid stream whose APP1 payload parses as a real
Exif segment is not reproduced byte-for-byte — the decoded segment is
re-serialised canonically (`get_data` hardcodes the first-IFD offset 8),
so the round-trip changes the offset field. -/
theorem C1_counterexample :
    (parseJpeg exifRtFile).bind (writeJpeg 5) = .ok exifRtOut ∧
      exifRtOut ≠ exifRtFile := by
  refine ⟨rfl, by decide⟩

/-- C1 (corrected): the round-trip identity holds for every well-formed
marker stream all of whose non-scan segments decode as opaque default
segments — every known non-scan marker, any payload fitting the size
field, with APP1 payloads restricted to those failing the Exif signature
check — followed by an optional scan segment with trailing image data:
decode then re-encode reproduces the stream byte-for-byte. -/
theorem thm_C1 (fuel : Nat) (mid : List (Nat × List Nat))
    (sos : Option (List Nat × List Nat))
    (hgm : goodMid mid) (hgt : goodTail sos) :
    (parseJpeg (jpegStream mid sos)).bind (writeJpeg fuel)
      = .ok (jpegStream mid sos) := by
  have hdrop2 : (jpegStream mid sos).drop 2
      = midBytes mid ++ tailBytes sos ++ [255, 217] := rfl
  have hr := readN_spec (jpegStream mid sos) 0 2 (jpegStream mid sos)
    (by simp) (by omega) (by simp [jpegStream])
  have hr' : readN (jpegStream mid sos) 0 2 = ([255, 216], 2) := by
    rw [hr.1]; rfl
  have hlen : (jpegStream mid sos).length
      = 4 + (midBytes mid).length + (tailBytes sos).length := by
    simp [jpegStream]
    omega
  have hmb := midBytes_length_ge mid
  have hparse : parseJpeg (jpegStream mid sos) = .ok (expectedSegs mid sos) := by
    unfold parseJpeg
    rw [hr']
    simp only
    rw [if_pos trivial]
    rw [parseLoop_good mid sos (jpegStream mid sos) 2
      ((jpegStream mid sos).length + 1) [] hgm hgt (by omega) hdrop2 (by omega)]
    simp
  rw [hparse]
  show writeJpeg fuel (expectedSegs mid sos) = .ok (jpegStream mid sos)
  unfold writeJpeg
  simp only [bind, Except.bind, pure, Except.pure]
  rw [writeSegs_expected fuel mid sos hgm hgt]
  simp [jpegStream]

/-- Witness for C1 at a concrete stream: one APP0 segment and a scan
segment with image data. -/
theorem thm_C1_witness :
    goodMid [(224, [1, 2, 3, 4])] ∧ goodTail (some ([5, 6], [9, 9, 9, 9])) ∧
    (parseJpeg (jpegStream [(224, [1, 2, 3, 4])] (some ([5, 6], [9, 9, 9, 9])))).bind
        (writeJpeg 5)
      = .ok (jpegStream [(224, [1, 2, 3, 4])] (some ([5, 6], [9, 9, 9, 9]))) := by
  have hgm : goodMid [(224, [1, 2, 3, 4])] := by
    intro mp hmp
    simp only [List.mem_singleton] at hmp
    subst hmp
    exact ⟨by decide, by decide, by decide, fun h => absurd h (by decide)⟩
  have hgt : goodTail (some ([5, 6], [9, 9, 9, 9])) := by
    show ([5, 6] : List Nat).length + 2 < 65536
    decide
  exact ⟨hgm, hgt,
    thm_C1 5 [(224, [1, 2, 3, 4])] (some ([5, 6], [9, 9, 9, 9])) hgm hgt⟩

end Pexif
